import Mathlib

/-!
Verification of the PDM-Web DXF nesting pipeline.

This development is a shallow embedding of the nesting core of the repository:

* `worker/nesting/nester.py`    — the Bottom-Left-Fill nester (`nest_parts`,
  `_try_place`, `_overlaps_any`, `_is_oversized`);
* `worker/nesting/dxf_parser.py` — the DXF reader (`_discretize_arc`);
* `worker/nesting/dxf_writer.py` — the DXF writer (`_insert_part_from_dxf`);
* `worker/nesting/nest_worker.py` — the worker (`process_nest_task`).

Coordinates are modelled over an arbitrary linear ordered field `K`
(instantiated with `ℚ` for concrete evaluations; the Python code computes
with IEEE doubles, which we idealise as exact field arithmetic).  The
geometry kernel used by the code is Shapely/GEOS, an external C++ library;
the handful of its operations the nesting code calls that are not plain
coordinate arithmetic (buffer, validity, intersection predicates, and the
trigonometric values backing rotation by an angle in degrees) are modelled
as parameters collected in a `GeomOps` record, while translation, bounds,
centroid, area and rotation-given-cosine-and-sine are implemented directly
on vertex lists exactly as Shapely's affine transforms do.
-/

namespace PDMWeb

/-- A 2D point. -/
abbrev Pt (K : Type) := K × K

/-- A polygon, represented by its exterior ring as a vertex list
(without a repeated closing vertex). -/
abbrev Poly (K : Type) := List (K × K)

variable {K : Type} [LinearOrderedField K]

/-- Shapely `translate(geom, dx, dy)`: shift every vertex. -/
def translateP (dx dy : K) (p : Poly K) : Poly K :=
  p.map (fun q => (q.1 + dx, q.2 + dy))

/-- Minimum x of `geom.bounds` (0 for an empty geometry; the code never
takes bounds of an empty geometry on the paths we model). -/
def boundsMinX : Poly K → K
  | [] => 0
  | q :: qs => qs.foldl (fun a r => min a r.1) q.1

/-- Minimum y of `geom.bounds`. -/
def boundsMinY : Poly K → K
  | [] => 0
  | q :: qs => qs.foldl (fun a r => min a r.2) q.2

/-- Maximum x of `geom.bounds`. -/
def boundsMaxX : Poly K → K
  | [] => 0
  | q :: qs => qs.foldl (fun a r => max a r.1) q.1

/-- Maximum y of `geom.bounds`. -/
def boundsMaxY : Poly K → K
  | [] => 0
  | q :: qs => qs.foldl (fun a r => max a r.2) q.2

/-- The directed edge list of a polygon ring (each vertex paired with its
cyclic successor). -/
def ringEdges : Poly K → List (Pt K × Pt K)
  | [] => []
  | q :: qs => (q :: qs).zip (qs ++ [q])

/-- Twice the signed (shoelace) area of the ring. -/
def signedArea2 (p : Poly K) : K :=
  ((ringEdges p).map (fun e => e.1.1 * e.2.2 - e.2.1 * e.1.2)).sum

/-- Shapely `polygon.area`: absolute shoelace area. -/
def areaP (p : Poly K) : K := |signedArea2 p| / 2

/-- Shapely `polygon.centroid`: the area-weighted (shoelace) centroid of the
ring.  Total function; degenerate rings divide by zero, which Lean's field
division sends to 0 — such rings do not occur on the paths we reason about. -/
def centroidP (p : Poly K) : Pt K :=
  let a2 := signedArea2 p
  let sx := ((ringEdges p).map
    (fun e => (e.1.1 + e.2.1) * (e.1.1 * e.2.2 - e.2.1 * e.1.2))).sum
  let sy := ((ringEdges p).map
    (fun e => (e.1.2 + e.2.2) * (e.1.1 * e.2.2 - e.2.1 * e.1.2))).sum
  (sx / (3 * a2), sy / (3 * a2))

/-- Rotate one point about a pivot, given the cosine and sine of the angle. -/
def rotPt (c s : K) (piv q : Pt K) : Pt K :=
  (piv.1 + c * (q.1 - piv.1) - s * (q.2 - piv.2),
   piv.2 + s * (q.1 - piv.1) + c * (q.2 - piv.2))

/-- Shapely `rotate(geom, angle, origin="centroid")`, given the cosine and
sine of the angle: every vertex is rotated about the centroid of the
geometry being rotated. -/
def shapelyRotate (c s : K) (p : Poly K) : Poly K :=
  p.map (rotPt c s (centroidP p))

/-- The external geometry/trigonometry operations the nesting code calls on
the Shapely/GEOS library, modelled as parameters:
`C d` / `S d` are the cosine and sine of `d` degrees, `buffer p d` is
`p.buffer(d)`, `isValid` is GEOS `is_valid`, and `intersects` / `touches`
are the GEOS predicates used by `_overlaps_any` (first argument: the
already-placed prepared polygon; second: the candidate). -/
structure GeomOps (K : Type) [LinearOrderedField K] where
  C : ℤ → K
  S : ℤ → K
  buffer : Poly K → K → Poly K
  isValid : Poly K → Bool
  intersects : Poly K → Poly K → Bool
  touches : Poly K → Poly K → Bool

/-- Shapely `rotate(geom, rot, origin="centroid", use_radians=False)` for an angle
of `rot` degrees. -/
def rotateDeg (g : GeomOps K) (rot : ℤ) (p : Poly K) : Poly K :=
  shapelyRotate (g.C rot) (g.S rot) p

/-- Model of `nester.Placement`: one placed part instance. -/
structure Placement (K : Type) where
  partId : String
  instNo : ℕ
  polygon : Poly K
  x : K
  y : K
  rotation : ℤ
deriving DecidableEq

/-- Model of `nester.SheetResult`: one output sheet. -/
structure SheetResult (K : Type) where
  index : ℕ
  width : K
  height : K
  placements : List (Placement K)
  utilization : K
deriving DecidableEq

/-- Model of `nester.SkippedPart`: an instance that was not placed. -/
structure SkippedPart where
  partId : String
  instNo : ℕ
  reason : String
deriving DecidableEq

/-- Model of `nester.NestingResult`. -/
structure NestingResult (K : Type) where
  sheets : List (SheetResult K)
  skipped : List SkippedPart
deriving DecidableEq

/-- Model of `NestingResult.total_parts_placed`. -/
def totalPartsPlaced (r : NestingResult K) : ℕ :=
  (r.sheets.map (fun s => s.placements.length)).sum

/-- An entry of the `parts` argument of `nest_parts`
(a dict with keys id, polygon, quantity). -/
structure PartSpec (K : Type) where
  id : String
  polygon : Poly K
  quantity : ℕ
deriving DecidableEq

/-- An entry of the `instances` list built inside `nest_parts`. -/
structure NestInstance (K : Type) where
  id : String
  instNo : ℕ
  original : Poly K
  buffered : Poly K
deriving DecidableEq

/-- The rotation angles tried, from `nest_parts`:
`[0]` if `rotation_step <= 0`, else `range(0, 360, rotation_step)`. -/
def rotationsList (rotationStep : ℤ) : List ℤ :=
  if rotationStep ≤ 0 then [0]
  else
    let s := rotationStep.toNat
    (List.range' 0 (359 / s + 1) s).map Int.ofNat

/-- Insert into a list kept sorted descending by `key`, after all entries
with a key `≥` the new one (the stable position). -/
def insertDescBy {α : Type} (key : α → K) (a : α) : List α → List α
  | [] => [a]
  | b :: bs => if key a ≤ key b then b :: insertDescBy key a bs else a :: b :: bs

/-- Python's stable `list.sort(key=key, reverse=True)`: sort descending by
`key`, ties keeping the original order. -/
def sortDescBy {α : Type} (key : α → K) (l : List α) : List α :=
  l.foldl (fun acc a => insertDescBy key a acc) []

/-- Model of `_overlaps_any`: the candidate clashes with some already-placed
buffered polygon — it intersects one and does not merely touch it. -/
def overlapsAny (g : GeomOps K) (candidate : Poly K) (placed : List (Poly K)) : Bool :=
  placed.any (fun p => g.intersects p candidate && ! g.touches p candidate)

/-- The rotation applied throughout the nester: the identity when
`rot == 0` (the code skips the Shapely call), otherwise Shapely's rotation
about the geometry's own centroid. -/
def rotIfNZ (g : GeomOps K) (rot : ℤ) (p : Poly K) : Poly K :=
  if rot ≠ 0 then rotateDeg g rot p else p

/-- Model of `_is_oversized`: the buffered part fits the usable area at no admitted
rotation. -/
def isOversized (g : GeomOps K) (buffered : Poly K)
    (usableW usableH : K) (rotations : List ℤ) : Bool :=
  rotations.all (fun rot =>
    let r := rotIfNZ g rot buffered
    let pw := boundsMaxX r - boundsMinX r
    let ph := boundsMaxY r - boundsMinY r
    ! (decide (pw ≤ usableW) && decide (ph ≤ usableH)))

/-- Fuel bound for the scan loops of `_try_place`: with a positive step the
loop runs out strictly before this many iterations, so the fuelled loop
below computes exactly what the unbounded `while` loop computes. -/
def gridCount [FloorRing K] (step limit : K) : ℕ :=
  (Int.ceil ((limit + 1) / step)).toNat + 1

/-- The scan loop of `_try_place` (`while v + size <= limit + 0.001`,
`v += step`), started at `v` with the given fuel: the list of candidate
coordinates the loop ranges over. -/
def gridVals (step limit size : K) : K → ℕ → List K
  | _, 0 => []
  | v, n + 1 =>
    if v + size ≤ limit + 1 / 1000 then v :: gridVals step limit size (v + step) n
    else []

/-- The best-position update of `_try_place` at one `y`-row: if the x-scan
found a position, record it when it improves `(y, x)` lexicographically. -/
def stepBest (rot : ℤ) (y : K) (found : Option K)
    (best : Option (K × K × ℤ)) : Option (K × K × ℤ) :=
  match found with
  | some x =>
    match best with
    | none => some (y, x, rot)
    | some (yb, xb, rb) =>
      if y < yb ∨ (y = yb ∧ x < xb) then some (y, x, rot) else some (yb, xb, rb)
  | none => best

/-- The y-scan of `_try_place` for one rotation: for each `y`, find the
first `x` accepted by the collision test; record it as the running best if
it improves `(y, x)` lexicographically; stop scanning further rows as soon
as a best exists with `best_y ≤ y`. -/
def scanYs (accept : K → K → Bool) (xs : List K) (rot : ℤ) :
    Option (K × K × ℤ) → List K → Option (K × K × ℤ)
  | best, [] => best
  | best, y :: rest =>
    let best1 := stepBest rot y (xs.find? (fun x => accept x y)) best
    match best1 with
    | some (yb, _, _) =>
      if yb ≤ y then best1 else scanYs accept xs rot best1 rest
    | none => scanYs accept xs rot best1 rest

/-- The grid step of `_try_place`: computed once, from the bounds of the
unrotated buffered polygon (`step = max(0.25, min(part_w, part_h) / 4)`). -/
def stepOf (b : Poly K) : K :=
  max (1 / 4) (min (boundsMaxX b - boundsMinX b) (boundsMaxY b - boundsMinY b) / 4)

/-- The normalized rotated buffered polygon of one rotation of
`_try_place`: rotate, then translate so the rotated bounding box starts at
`(0, 0)`. -/
def normBufR (g : GeomOps K) (buffered : Poly K) (rot : ℤ) : Poly K :=
  let rbuf := rotIfNZ g rot buffered
  translateP (-(boundsMinX rbuf)) (-(boundsMinY rbuf)) rbuf

/-- The width `pw` of the normalized buffered bounding box at a rotation. -/
def pwR (g : GeomOps K) (buffered : Poly K) (rot : ℤ) : K :=
  boundsMaxX (normBufR g buffered rot) - boundsMinX (normBufR g buffered rot)

/-- The height `ph` of the normalized buffered bounding box at a rotation. -/
def phR (g : GeomOps K) (buffered : Poly K) (rot : ℤ) : K :=
  boundsMaxY (normBufR g buffered rot) - boundsMinY (normBufR g buffered rot)

/-- The body of the rotation loop of `_try_place` for one rotation: skip
the rotation when the normalized box does not fit at all, otherwise run the
grid scan, threading the running best `(y, x, rotation)`. -/
def rotScan [FloorRing K] (g : GeomOps K) (buffered : Poly K)
    (placed : List (Poly K)) (usableW usableH margin step : K)
    (best : Option (K × K × ℤ)) (rot : ℤ) : Option (K × K × ℤ) :=
  let pw := pwR g buffered rot
  let ph := phR g buffered rot
  if pw > usableW ∨ ph > usableH then best
  else
    scanYs
      (fun x y =>
        ! overlapsAny g (translateP (x + margin) (y + margin) (normBufR g buffered rot)) placed)
      (gridVals step usableW pw 0 (gridCount step usableW)) rot best
      (gridVals step usableH ph 0 (gridCount step usableH))

/-- Model of `_try_place`: try to place one instance on the sheet holding the given
already-placed buffered polygons.  Returns the recorded `Placement` and the
buffered polygon appended to the sheet's collision list, or `none`. -/
def tryPlace [FloorRing K] (g : GeomOps K) (inst : NestInstance K)
    (placed : List (Poly K)) (usableW usableH margin : K)
    (rotations : List ℤ) : Option (Placement K × Poly K) :=
  let step := stepOf inst.buffered
  match rotations.foldl (rotScan g inst.buffered placed usableW usableH margin step) none with
  | none => none
  | some (y, x, rot) =>
    let rbuf := rotIfNZ g rot inst.buffered
    let rorig := rotIfNZ g rot inst.original
    let normOrig := translateP (-(boundsMinX rbuf)) (-(boundsMinY rbuf)) rorig
    let actualOrig := translateP (x + margin) (y + margin) normOrig
    let placedFinal := translateP (x + margin) (y + margin) (normBufR g inst.buffered rot)
    some (⟨inst.id, inst.instNo, actualOrig, x + margin, y + margin, rot⟩, placedFinal)

/-- The mutable state of the placement loop of `nest_parts`: the finished
sheets (each with its collision-polygon list), the current sheet, and the
skipped list accumulated so far. -/
structure NestState (K : Type) where
  finished : List (SheetResult K × List (Poly K))
  cur : SheetResult K
  curPolys : List (Poly K)
  skips : List SkippedPart

/-- One iteration of the placement loop of `nest_parts`: try the current
sheet; on refusal open a new sheet and retry; on a second refusal record a
skip. -/
def nestStep [FloorRing K] (g : GeomOps K) (sheetW sheetH usableW usableH margin : K)
    (rotations : List ℤ) (st : NestState K) (inst : NestInstance K) : NestState K :=
  match tryPlace g inst st.curPolys usableW usableH margin rotations with
  | some (pl, poly) =>
    { st with cur := { st.cur with placements := st.cur.placements ++ [pl] },
              curPolys := st.curPolys ++ [poly] }
  | none =>
    let fresh : SheetResult K := ⟨st.finished.length + 2, sheetW, sheetH, [], 0⟩
    match tryPlace g inst [] usableW usableH margin rotations with
    | some (pl, poly) =>
      { finished := st.finished ++ [(st.cur, st.curPolys)],
        cur := { fresh with placements := [pl] },
        curPolys := [poly], skips := st.skips }
    | none =>
      { finished := st.finished ++ [(st.cur, st.curPolys)],
        cur := fresh, curPolys := [],
        skips := st.skips ++ [⟨inst.id, inst.instNo, "Could not fit on any sheet"⟩] }

/-- The `instances` list built at the top of `nest_parts`: one entry per
unit of quantity, sharing the part's buffered polygon; a part whose
buffered polygon is not valid or is empty contributes nothing. -/
def buildInstances (g : GeomOps K) (parts : List (PartSpec K)) (spacing : K) :
    List (NestInstance K) :=
  parts.flatMap (fun part =>
    let buffered := g.buffer part.polygon (spacing / 2)
    if ! g.isValid buffered || buffered.isEmpty then []
    else (List.range part.quantity).map
      (fun i => (⟨part.id, i + 1, part.polygon, buffered⟩ : NestInstance K)))

/-- The re-indexing loop `for i, sheet in enumerate(result.sheets): sheet.index = i + 1`. -/
def reindexSheets : ℕ → List (SheetResult K) → List (SheetResult K)
  | _, [] => []
  | i, s :: rest => { s with index := i + 1 } :: reindexSheets (i + 1) rest

/-- The closing phase of `nest_parts`: set per-sheet utilization, drop
empty sheets, re-index from 1. -/
def finalizeSheets (usableArea : K) (allSheets : List (SheetResult K)) :
    List (SheetResult K) :=
  let withUtil := allSheets.map (fun s =>
    { s with utilization :=
        if usableArea > 0 then
          ((s.placements.map (fun p => areaP (Placement.polygon p))).sum) / usableArea
        else 0 })
  reindexSheets 0 (withUtil.filter (fun s => ! s.placements.isEmpty))

/-- The instance list of `nest_parts` after the in-place area-descending
sort. -/
def sortedInstances (g : GeomOps K) (parts : List (PartSpec K)) (spacing : K) :
    List (NestInstance K) :=
  sortDescBy (fun inst => areaP inst.original) (buildInstances g parts spacing)

/-- The instances recorded as oversized by the pre-check of `nest_parts`. -/
def oversizedList (g : GeomOps K) (si : List (NestInstance K))
    (usableW usableH : K) (rotations : List ℤ) : List (NestInstance K) :=
  si.filter (fun i => isOversized g i.buffered usableW usableH rotations)

/-- The instances surviving the oversize pre-filter of `nest_parts`
(filtered by membership of their `(id, instance)` key in the oversized-key
set). -/
def placeableList (g : GeomOps K) (si : List (NestInstance K))
    (usableW usableH : K) (rotations : List ℤ) : List (NestInstance K) :=
  si.filter (fun i => ! decide ((i.id, i.instNo) ∈
    (oversizedList g si usableW usableH rotations).map (fun i => (i.id, i.instNo))))

/-- The state after the placement loop of `nest_parts`. -/
def nestLoopRun [FloorRing K] (g : GeomOps K) (si : List (NestInstance K))
    (sheetW sheetH usableW usableH margin : K) (rotations : List ℤ) :
    NestState K :=
  (placeableList g si usableW usableH rotations).foldl
    (nestStep g sheetW sheetH usableW usableH margin rotations)
    ⟨[], ⟨1, sheetW, sheetH, [], 0⟩, [],
      (oversizedList g si usableW usableH rotations).map
        (fun i => (⟨i.id, i.instNo, "Too large for sheet at any rotation"⟩ : SkippedPart))⟩

/-- Model of `nest_parts`: the Bottom-Left-Fill nester. -/
def nestParts [FloorRing K] (g : GeomOps K) (parts : List (PartSpec K))
    (sheetW sheetH spacing margin : K) (rotationStep : ℤ) : NestingResult K :=
  let usableW := sheetW - 2 * margin
  let usableH := sheetH - 2 * margin
  let usableArea := usableW * usableH
  if usableW ≤ 0 ∨ usableH ≤ 0 then ⟨[], []⟩
  else
    let finSt := nestLoopRun g (sortedInstances g parts spacing)
      sheetW sheetH usableW usableH margin (rotationsList rotationStep)
    ⟨finalizeSheets usableArea ((finSt.finished.map Prod.fst) ++ [finSt.cur]),
     finSt.skips⟩

/-- Model of `dxf_parser._discretize_arc`: discretize a DXF ARC entity into chord
points.  `pi` is the value of `math.pi` and `cosF`/`sinF` the radian
cosine/sine, kept abstract (they are transcendental); `Int.ceil` models
Python's `int(math.ceil(...))` on exact reals. -/
def discretizeArc [FloorRing K] (pi : K) (cosF sinF : K → K)
    (cx cy radius startDeg endDeg chordTol : K) : List (Pt K) :=
  let startA := startDeg * pi / 180
  let end0 := endDeg * pi / 180
  let endA := if end0 ≤ startA then end0 + 2 * pi else end0
  let arcLen := radius * (endA - startA)
  if arcLen < chordTol then []
  else
    let n : ℤ := min (max 2 (Int.ceil (arcLen / chordTol))) 360
    (List.range (n.toNat + 1)).map (fun (i : ℕ) =>
      let t := startA + (endA - startA) * (i : K) / (n : K)
      (cx + radius * cosF t, cy + radius * sinF t))

/-- A DXF modelspace entity as the nesting writer sees it.  LWPOLYLINE
vertices are the raw points of `get_points(format="xy")` (any bulge values
present in the file are not read by the writer); SPLINE carries the points
ezdxf's `flattening(0.01)` produces. -/
inductive DxfEntity (K : Type)
  | line (s e : Pt K)
  | arc (center : Pt K) (radius startAngle endAngle : K)
  | circle (center : Pt K) (radius : K)
  | lwpolyline (pts : List (Pt K)) (closed : Bool)
  | spline (flattened : List (Pt K)) (closed : Bool)
deriving DecidableEq

/-- The point-collection loop of `dxf_writer._insert_part_from_dxf`
(lines 92–107): LINE contributes both endpoints, ARC and CIRCLE contribute
only their center, LWPOLYLINE its vertices, SPLINE its flattened points. -/
def collectPoints : List (DxfEntity K) → List (Pt K)
  | [] => []
  | .line s e :: rest => s :: e :: collectPoints rest
  | .arc c _ _ _ :: rest => c :: collectPoints rest
  | .circle c _ :: rest => c :: collectPoints rest
  | .lwpolyline pts _ :: rest => pts ++ collectPoints rest
  | .spline pts _ :: rest => pts ++ collectPoints rest

/-- Model of `dxf_writer._insert_part_from_dxf`: transform the source entities of a
part onto the sheet.  Pivot is the arithmetic mean of the collected points;
the rotated collected-point bounding-box minimum is aligned to the
bounding-box minimum of `placement.polygon`.  Returns `none` when no points
were collected (the code raises, and the caller falls back to drawing the
placement polygon). -/
def insertPartFromDxf (g : GeomOps K) (entities : List (DxfEntity K))
    (placementPoly : Poly K) (rotation : ℤ) : Option (List (DxfEntity K)) :=
  let allPoints := collectPoints entities
  if allPoints.isEmpty then none
  else
    let cx := (allPoints.map Prod.fst).sum / (allPoints.length : K)
    let cy := (allPoints.map Prod.snd).sum / (allPoints.length : K)
    let targetMinX := boundsMinX placementPoly
    let targetMinY := boundsMinY placementPoly
    let rotp := rotPt (g.C rotation) (g.S rotation) (cx, cy)
    let rotated := allPoints.map rotp
    let rotMinX := boundsMinX rotated
    let rotMinY := boundsMinY rotated
    let tf := fun (q : Pt K) =>
      let r := rotp q
      (r.1 - rotMinX + targetMinX, r.2 - rotMinY + targetMinY)
    some (entities.flatMap (fun e =>
      match e with
      | .line s e => [DxfEntity.line (tf s) (tf e)]
      | .lwpolyline pts cl => [DxfEntity.lwpolyline (pts.map tf) cl]
      | .circle c r => [DxfEntity.circle (tf c) r]
      | .arc c r a1 a2 => [DxfEntity.arc (tf c) r (a1 + (rotation : K)) (a2 + (rotation : K))]
      | .spline pts cl =>
        if pts.length < 2 then [] else [DxfEntity.lwpolyline (pts.map tf) cl]))

/-- The `nest_jobs` row fields the worker reads.  `outRoot` is the job's
output path root (the `output_prefix` column). -/
structure NestJobRow (K : Type) where
  jobId : String
  material : String
  thickness : K
  sheetW : K
  sheetH : K
  spacing : K
  margin : K
  rotationStep : ℤ
  outRoot : String

/-- A `nest_job_items` row as the worker uses it. -/
structure NestJobItem where
  itemNumber : String
  quantity : ℕ

/-- Outcome of running the DXF reader on a downloaded file: either the
polygon list it returns, or the exception it raises (unreadable file). -/
inductive ParseOutcome (K : Type)
  | ok (polys : List (Poly K))
  | raised (msg : String)

/-- A value stored in a `nest_results` row field. -/
inductive FieldVal (K : Type)
  | s (v : String)
  | num (v : K)
  | int (v : ℤ)
  | nat (v : ℕ)
  | placements (v : List (String × ℕ × K × K × ℤ))
deriving DecidableEq

/-- Python 3 banker's rounding of `y` to an integer (round half to even). -/
def roundHalfToEven [FloorRing K] (y : K) : ℤ :=
  let f := Int.floor y
  if y - f < 1 / 2 then f
  else if 1 / 2 < y - f then f + 1
  else if f % 2 = 0 then f else f + 1

/-- Python `round(x, 4)`. -/
def round4 [FloorRing K] (x : K) : K :=
  ((roundHalfToEven (x * 10000) : ℤ) : K) / 10000

/-- Python `f"{n:02d}"` for a natural number. -/
def pad2 (n : ℕ) : String :=
  if n < 10 then "0" ++ toString n else toString n

/-- The `nest_results` row the worker builds for one sheet
(`nest_worker.py` lines 226–233), as the literal key/value dict. -/
def mkResultRow [FloorRing K] (jobId outRoot : String) (sheet : SheetResult K) :
    List (String × FieldVal K) :=
  let storagePath := outRoot ++ "sheet_" ++ pad2 sheet.index ++ ".dxf"
  [("nest_job_id", FieldVal.s jobId),
   ("sheet_index", FieldVal.nat sheet.index),
   ("dxf_path", FieldVal.s storagePath),
   ("utilization", FieldVal.num (round4 sheet.utilization)),
   ("parts_on_sheet", FieldVal.nat sheet.placements.length),
   ("placements", FieldVal.placements (sheet.placements.map
     (fun p => (p.partId, p.instNo, round4 p.x, round4 p.y, p.rotation))))]

/-- Terminal outcome of `process_nest_task` for one job: the job row is
marked completed (with the inserted result rows and the storage paths
uploaded) or failed with an error message. -/
inductive TaskOutcome (K : Type)
  | completed (rows : List (List (String × FieldVal K)))
      (uploads : List String) (result : NestingResult K)
  | failed (msg : String)
deriving DecidableEq

/-- The parse loop of `process_nest_task` (step 5): items are taken in
order; a raised parse exception propagates (failing the whole job); an
empty polygon list skips the item; otherwise the first (largest) polygon
becomes the part outline. -/
def collectParts (parse : String → ParseOutcome K) :
    List NestJobItem → Except String (List (PartSpec K))
  | [] => .ok []
  | it :: rest =>
    match parse it.itemNumber with
    | .raised m => .error m
    | .ok [] => collectParts parse rest
    | .ok (p :: _) =>
      (collectParts parse rest).map (fun ps => ⟨it.itemNumber, p, it.quantity⟩ :: ps)

/-- Model of `process_nest_task`, as a function of the job row, its items, and the
outcomes of the external download and parse operations (download failures
are logged and skipped per item; parse runs only on downloaded items). -/
def processNestTask [FloorRing K] (g : GeomOps K) (job : NestJobRow K)
    (items : List NestJobItem) (download : String → Bool)
    (parse : String → ParseOutcome K) : TaskOutcome K :=
  if items.isEmpty then .failed "No items in nest job"
  else
    let downloaded := items.filter (fun it => download it.itemNumber)
    if downloaded.isEmpty then .failed "Failed to download any DXF files"
    else
      match collectParts parse downloaded with
      | .error msg => .failed msg
      | .ok parts =>
        if parts.isEmpty then .failed "No valid geometry found in any DXF files"
        else
          let result := nestParts g parts job.sheetW job.sheetH
            job.spacing job.margin job.rotationStep
          let rows := result.sheets.map (mkResultRow job.jobId job.outRoot)
          let uploads := (result.sheets.map
            (fun s => job.outRoot ++ "sheet_" ++ pad2 s.index ++ ".dxf"))
            ++ [job.outRoot ++ "manifest.json"]
          .completed rows uploads result

/-- Cosine, in degrees, at the angles the concrete evaluations below use
(0 and 180, the admitted set for `rotation_step = 180`); these are the true
cosine values at those angles. -/
def qTrigC (d : ℤ) : ℚ := if d = 180 then -1 else 1

/-- Sine, in degrees, at the angles the concrete evaluations below use
(0 and 180): zero at both. -/
def qTrigS (_ : ℤ) : ℚ := 0

/-- Closed axis-aligned bounding boxes meet. -/
def boxesMeet (p q : Poly ℚ) : Bool :=
  decide (boundsMinX p ≤ boundsMaxX q) && decide (boundsMinX q ≤ boundsMaxX p) &&
  decide (boundsMinY p ≤ boundsMaxY q) && decide (boundsMinY q ≤ boundsMaxY p)

/-- Open axis-aligned bounding boxes meet (interiors intersect, for
rectangles). -/
def boxesMeetOpen (p q : Poly ℚ) : Bool :=
  decide (boundsMinX p < boundsMaxX q) && decide (boundsMinX q < boundsMaxX p) &&
  decide (boundsMinY p < boundsMaxY q) && decide (boundsMinY q < boundsMaxY p)

/-- Concrete geometry operations for evaluations whose polygons are all
axis-aligned rectangles, rotated by at most 0° or 180°, and buffered by
distance 0: on such inputs `intersects`/`touches` coincide with the GEOS
predicates (rectangles intersect iff their closed boxes meet, and touch iff
they meet without their interiors meeting), `p.buffer(0)` returns the valid
rectangle unchanged, and the trigonometric values are exact. -/
def rectGeom : GeomOps ℚ :=
  { C := qTrigC, S := qTrigS,
    buffer := fun p _ => p,
    isValid := fun _ => true,
    intersects := boxesMeet,
    touches := fun p q => boxesMeet p q && ! boxesMeetOpen p q }

/-! ### Supporting lemmas -/

lemma foldl_shift (op : K → K → K) (hop : ∀ x y c : K, op (x + c) (y + c) = op x y + c)
    (f : Pt K → K) (dx dy δ : K) (hf : ∀ q : Pt K, f (q.1 + dx, q.2 + dy) = f q + δ)
    (qs : List (Pt K)) : ∀ a : K,
    (qs.map (fun q => (q.1 + dx, q.2 + dy))).foldl (fun acc r => op acc (f r)) (a + δ)
      = qs.foldl (fun acc r => op acc (f r)) a + δ := by
  induction qs with
  | nil => intro a; simp
  | cons q qs ih =>
    intro a
    simp only [List.map_cons, List.foldl_cons]
    rw [hf q, hop]
    exact ih (op a (f q))

lemma boundsMinX_translateP (dx dy : K) (p : Poly K) (hp : p ≠ []) :
    boundsMinX (translateP dx dy p) = boundsMinX p + dx := by
  match p, hp with
  | q :: qs, _ =>
    simpa [translateP, boundsMinX] using
      foldl_shift (K := K) min (fun x y c => min_add_add_right x y c)
        Prod.fst dx dy dx (fun _ => rfl) qs q.1

lemma boundsMinY_translateP (dx dy : K) (p : Poly K) (hp : p ≠ []) :
    boundsMinY (translateP dx dy p) = boundsMinY p + dy := by
  match p, hp with
  | q :: qs, _ =>
    simpa [translateP, boundsMinY] using
      foldl_shift (K := K) min (fun x y c => min_add_add_right x y c)
        Prod.snd dx dy dy (fun _ => rfl) qs q.2

lemma boundsMaxX_translateP (dx dy : K) (p : Poly K) (hp : p ≠ []) :
    boundsMaxX (translateP dx dy p) = boundsMaxX p + dx := by
  match p, hp with
  | q :: qs, _ =>
    simpa [translateP, boundsMaxX] using
      foldl_shift (K := K) max (fun x y c => max_add_add_right x y c)
        Prod.fst dx dy dx (fun _ => rfl) qs q.1

lemma boundsMaxY_translateP (dx dy : K) (p : Poly K) (hp : p ≠ []) :
    boundsMaxY (translateP dx dy p) = boundsMaxY p + dy := by
  match p, hp with
  | q :: qs, _ =>
    simpa [translateP, boundsMaxY] using
      foldl_shift (K := K) max (fun x y c => max_add_add_right x y c)
        Prod.snd dx dy dy (fun _ => rfl) qs q.2

lemma foldl_min_le_init (f : Pt K → K) (l : List (Pt K)) : ∀ a : K,
    l.foldl (fun acc r => min acc (f r)) a ≤ a := by
  induction l with
  | nil => intro a; simp
  | cons q qs ih =>
    intro a
    simp only [List.foldl_cons]
    exact le_trans (ih (min a (f q))) (min_le_left _ _)

lemma init_le_foldl_max (f : Pt K → K) (l : List (Pt K)) : ∀ a : K,
    a ≤ l.foldl (fun acc r => max acc (f r)) a := by
  induction l with
  | nil => intro a; simp
  | cons q qs ih =>
    intro a
    simp only [List.foldl_cons]
    exact le_trans (le_max_left _ _) (ih (max a (f q)))

lemma boundsMinX_le_boundsMaxX (p : Poly K) : boundsMinX p ≤ boundsMaxX p := by
  match p with
  | [] => exact le_refl 0
  | q :: qs =>
    exact le_trans (foldl_min_le_init Prod.fst qs q.1)
      (init_le_foldl_max Prod.fst qs q.1)

lemma boundsMinY_le_boundsMaxY (p : Poly K) : boundsMinY p ≤ boundsMaxY p := by
  match p with
  | [] => exact le_refl 0
  | q :: qs =>
    exact le_trans (foldl_min_le_init Prod.snd qs q.2)
      (init_le_foldl_max Prod.snd qs q.2)

lemma translateP_ne_nil (dx dy : K) (p : Poly K) (hp : p ≠ []) :
    translateP dx dy p ≠ [] := by
  cases p with
  | nil => exact absurd rfl hp
  | cons q qs => simp [translateP]

lemma shapelyRotate_ne_nil (c s : K) (p : Poly K) (hp : p ≠ []) :
    shapelyRotate c s p ≠ [] := by
  cases p with
  | nil => exact absurd rfl hp
  | cons q qs => simp [shapelyRotate]

lemma gridVals_mem (step limit size : K) (hstep : 0 < step) :
    ∀ (n : ℕ) (v0 : K), limit + 1 / 1000 < (n : K) * step + v0 + size →
      ∀ u : K, (u ∈ gridVals step limit size v0 n ↔
        ∃ i : ℕ, u = v0 + (i : K) * step ∧ u + size ≤ limit + 1 / 1000) := by
  intro n
  induction n with
  | zero =>
    intro v0 hfuel u
    simp only [gridVals, List.not_mem_nil, false_iff, not_exists]
    rintro i ⟨hu, hle⟩
    have hv : v0 ≤ u := by
      have : (0 : K) ≤ (i : K) * step :=
        mul_nonneg (Nat.cast_nonneg i) (le_of_lt hstep)
      linarith [hu ▸ le_refl u]
    simp only [Nat.cast_zero, zero_mul, zero_add] at hfuel
    linarith
  | succ n ih =>
    intro v0 hfuel u
    have hfuel' : limit + 1 / 1000 < (n : K) * step + (v0 + step) + size := by
      push_cast at hfuel ⊢
      linarith
    by_cases h : v0 + size ≤ limit + 1 / 1000
    · simp only [gridVals, if_pos h, List.mem_cons]
      constructor
      · rintro (rfl | hmem)
        · exact ⟨0, by simp, h⟩
        · obtain ⟨i, hu, hle⟩ := (ih (v0 + step) hfuel' u).mp hmem
          exact ⟨i + 1, by push_cast; linarith [hu ▸ le_refl u], hle⟩
      · rintro ⟨i, hu, hle⟩
        cases i with
        | zero => left; simpa using hu
        | succ j =>
          right
          refine (ih (v0 + step) hfuel' u).mpr ⟨j, ?_, hle⟩
          push_cast at hu ⊢
          linarith [hu ▸ le_refl u]
    · simp only [gridVals, if_neg h, List.not_mem_nil, false_iff, not_exists]
      rintro i ⟨hu, hle⟩
      have hv : v0 ≤ u := by
        have : (0 : K) ≤ (i : K) * step :=
          mul_nonneg (Nat.cast_nonneg i) (le_of_lt hstep)
        linarith [hu ▸ le_refl u]
      exact h (by linarith)

lemma gridCount_adequate [FloorRing K] (step limit size : K)
    (hstep : 0 < step) (hsize : 0 ≤ size) :
    limit + 1 / 1000 < ((gridCount step limit : ℕ) : K) * step + 0 + size := by
  have h1 : (limit + 1) / step ≤ ((Int.ceil ((limit + 1) / step)).toNat : K) := by
    calc (limit + 1) / step ≤ ((Int.ceil ((limit + 1) / step) : ℤ) : K) := Int.le_ceil _
    _ ≤ ((Int.ceil ((limit + 1) / step)).toNat : K) := by
        exact_mod_cast Int.cast_le.mpr (Int.self_le_toNat _)
  have h2 : ((gridCount step limit : ℕ) : K) = ((Int.ceil ((limit + 1) / step)).toNat : K) + 1 := by
    simp [gridCount]
  have h3 : (limit + 1) / step + 1 ≤ ((gridCount step limit : ℕ) : K) := by
    rw [h2]; linarith
  have h4 : ((limit + 1) / step + 1) * step ≤ ((gridCount step limit : ℕ) : K) * step :=
    mul_le_mul_of_nonneg_right h3 (le_of_lt hstep)
  have h5 : ((limit + 1) / step + 1) * step = limit + 1 + step := by
    field_simp
  nlinarith

lemma gridVals_zero_mem [FloorRing K] (step limit size : K)
    (hstep : 0 < step) (hsize : 0 ≤ size) (u : K) :
    u ∈ gridVals step limit size 0 (gridCount step limit) ↔
      ∃ i : ℕ, u = (i : K) * step ∧ u + size ≤ limit + 1 / 1000 := by
  rw [gridVals_mem step limit size hstep (gridCount step limit) 0
    (gridCount_adequate step limit size hstep hsize) u]
  simp

lemma gridVals_zero_head [FloorRing K] (step limit size : K)
    (h : size ≤ limit + 1 / 1000) :
    gridVals step limit size 0 (gridCount step limit) =
      0 :: gridVals step limit size (0 + step) ((Int.ceil ((limit + 1) / step)).toNat) := by
  have h0 : (0 : K) + size ≤ limit + 1 / 1000 := by simpa using h
  show gridVals step limit size 0 ((Int.ceil ((limit + 1) / step)).toNat + 1) = _
  rw [gridVals, if_pos h0]

lemma stepBest_isSome (rot : ℤ) (y : K) (found : Option K) (b : K × K × ℤ) :
    (stepBest rot y found (some b)).isSome := by
  obtain ⟨yb, xb, rb⟩ := b
  cases found with
  | none => simp [stepBest]
  | some x =>
    by_cases himp : y < yb ∨ (y = yb ∧ x < xb) <;> simp [stepBest, himp]

lemma stepBest_prop (P : K × K × ℤ → Prop) (rot : ℤ) (y : K)
    (found : Option K) (best : Option (K × K × ℤ))
    (hbest : ∀ b, best = some b → P b)
    (hfound : ∀ x, found = some x → P (y, x, rot)) :
    ∀ b, stepBest rot y found best = some b → P b := by
  intro b hb
  cases found with
  | none => exact hbest b hb
  | some x =>
    cases best with
    | none =>
      simp only [stepBest, Option.some.injEq] at hb
      exact hb ▸ hfound x rfl
    | some bv =>
      obtain ⟨yb, xb, rb⟩ := bv
      simp only [stepBest] at hb
      by_cases himp : y < yb ∨ (y = yb ∧ x < xb)
      · rw [if_pos himp] at hb
        exact (Option.some.injEq _ _ ▸ hb : _) ▸ (by
          cases hb
          exact hfound x rfl)
      · rw [if_neg himp] at hb
        exact hbest b (by cases hb; rfl)

lemma scanYs_isSome_of_some (accept : K → K → Bool) (xs : List K) (rot : ℤ) :
    ∀ (ys : List K) (b : K × K × ℤ),
      (scanYs accept xs rot (some b) ys).isSome := by
  intro ys
  induction ys with
  | nil => intro b; simp [scanYs]
  | cons y rest ih =>
    intro b
    simp only [scanYs]
    cases h1 : stepBest rot y (xs.find? (fun x => accept x y)) (some b) with
    | none =>
      exact absurd (h1 ▸ stepBest_isSome rot y _ b) (by simp)
    | some bv =>
      obtain ⟨yb, xb, rb⟩ := bv
      by_cases hle : yb ≤ y <;> simp [hle, ih]

lemma scanYs_first_fit (accept : K → K → Bool) (xs : List K) (rot : ℤ)
    (y : K) (rest : List K) (x : K)
    (hfind : xs.find? (fun x => accept x y) = some x) :
    scanYs accept xs rot none (y :: rest) = some (y, x, rot) := by
  simp [scanYs, hfind, stepBest]

lemma scanYs_prop (P : K × K × ℤ → Prop) (accept : K → K → Bool)
    (xs : List K) (rot : ℤ) :
    ∀ (ys : List K) (best : Option (K × K × ℤ)),
      (∀ b, best = some b → P b) →
      (∀ y ∈ ys, ∀ x, x ∈ xs → accept x y = true → P (y, x, rot)) →
      ∀ b, scanYs accept xs rot best ys = some b → P b := by
  intro ys
  induction ys with
  | nil =>
    intro best hbest _ b hb
    exact hbest b hb
  | cons y rest ih =>
    intro best hbest hnew b hb
    have hnew_rest : ∀ y ∈ rest, ∀ x, x ∈ xs → accept x y = true → P (y, x, rot) :=
      fun y' hy' => hnew y' (List.mem_cons_of_mem _ hy')
    have hfound : ∀ x, xs.find? (fun x => accept x y) = some x → P (y, x, rot) := by
      intro x hf
      have hxmem : x ∈ xs := List.mem_of_find?_eq_some hf
      have hacc : accept x y = true := by simpa using List.find?_some hf
      exact hnew y (List.mem_cons_self _ _) x hxmem hacc
    have hbest1 : ∀ b', stepBest rot y (xs.find? (fun x => accept x y)) best = some b' → P b' :=
      stepBest_prop P rot y _ best hbest hfound
    cases h1 : stepBest rot y (xs.find? (fun x => accept x y)) best with
    | none =>
      simp only [scanYs, h1] at hb
      exact ih none (by simp) hnew_rest b hb
    | some bv =>
      obtain ⟨yb, xb, rb⟩ := bv
      simp only [scanYs, h1] at hb
      by_cases hle : yb ≤ y
      · rw [if_pos hle] at hb
        exact hbest1 b (h1.trans hb)
      · rw [if_neg hle] at hb
        exact ih (some (yb, xb, rb)) (fun b' hb' => hbest1 b' (h1.trans hb')) hnew_rest b hb

lemma rotateDeg_ne_nil (g : GeomOps K) (rot : ℤ) (p : Poly K) (hp : p ≠ []) :
    rotateDeg g rot p ≠ [] :=
  shapelyRotate_ne_nil _ _ p hp

lemma rotIfNZ_ne_nil (g : GeomOps K) (rot : ℤ) (p : Poly K) (hp : p ≠ []) :
    rotIfNZ g rot p ≠ [] := by
  unfold rotIfNZ
  split
  · exact rotateDeg_ne_nil g rot p hp
  · exact hp

lemma pwR_eq (g : GeomOps K) (b : Poly K) (rot : ℤ) (hb : b ≠ []) :
    pwR g b rot = boundsMaxX (rotIfNZ g rot b) - boundsMinX (rotIfNZ g rot b) := by
  have hne := rotIfNZ_ne_nil g rot b hb
  unfold pwR normBufR
  rw [boundsMaxX_translateP _ _ _ hne, boundsMinX_translateP _ _ _ hne]
  ring

lemma phR_eq (g : GeomOps K) (b : Poly K) (rot : ℤ) (hb : b ≠ []) :
    phR g b rot = boundsMaxY (rotIfNZ g rot b) - boundsMinY (rotIfNZ g rot b) := by
  have hne := rotIfNZ_ne_nil g rot b hb
  unfold phR normBufR
  rw [boundsMaxY_translateP _ _ _ hne, boundsMinY_translateP _ _ _ hne]
  ring

lemma pwR_nonneg (g : GeomOps K) (b : Poly K) (rot : ℤ) : 0 ≤ pwR g b rot :=
  sub_nonneg.mpr (boundsMinX_le_boundsMaxX _)

lemma phR_nonneg (g : GeomOps K) (b : Poly K) (rot : ℤ) : 0 ≤ phR g b rot :=
  sub_nonneg.mpr (boundsMinY_le_boundsMaxY _)

lemma stepOf_pos (b : Poly K) : 0 < stepOf b :=
  lt_of_lt_of_le (by norm_num) (le_max_left _ _)

lemma overlapsAny_nil (g : GeomOps K) (c : Poly K) : overlapsAny g c [] = false := rfl

lemma rotScan_isSome_of_some [FloorRing K] (g : GeomOps K) (buf : Poly K)
    (placed : List (Poly K)) (uw uh margin step : K) (b : K × K × ℤ) (rot : ℤ) :
    (rotScan g buf placed uw uh margin step (some b) rot).isSome := by
  by_cases hg : pwR g buf rot > uw ∨ phR g buf rot > uh
  · simp [rotScan, hg]
  · simp only [rotScan]
    rw [if_neg hg]
    exact scanYs_isSome_of_some _ _ _ _ b

lemma rotScan_isSome_of_fit [FloorRing K] (g : GeomOps K) (buf : Poly K)
    (uw uh margin step : K) (rot : ℤ)
    (hfitW : pwR g buf rot ≤ uw) (hfitH : phR g buf rot ≤ uh)
    (best : Option (K × K × ℤ)) :
    (rotScan g buf [] uw uh margin step best rot).isSome := by
  cases best with
  | some b => exact rotScan_isSome_of_some g buf [] uw uh margin step b rot
  | none =>
    simp only [rotScan]
    rw [if_neg (by push_neg; exact ⟨hfitW, hfitH⟩)]
    have hxhead := gridVals_zero_head step uw (pwR g buf rot)
      (le_trans hfitW (by linarith [show (0 : K) < 1 / 1000 by norm_num]))
    have hyhead := gridVals_zero_head step uh (phR g buf rot)
      (le_trans hfitH (by linarith [show (0 : K) < 1 / 1000 by norm_num]))
    rw [hxhead, hyhead]
    refine Option.isSome_iff_exists.mpr ⟨(0, 0, rot), ?_⟩
    exact scanYs_first_fit _ _ rot 0 _ 0
      (List.find?_cons_of_pos _ (by simp [overlapsAny]))

lemma foldl_rotScan_isSome [FloorRing K] (g : GeomOps K) (buf : Poly K)
    (uw uh margin step : K) :
    ∀ (l : List ℤ) (best : Option (K × K × ℤ)),
      (best.isSome ∨ ∃ rot ∈ l, pwR g buf rot ≤ uw ∧ phR g buf rot ≤ uh) →
      (l.foldl (rotScan g buf [] uw uh margin step) best).isSome := by
  intro l
  induction l with
  | nil =>
    intro best h
    rcases h with h | ⟨rot, hmem, _⟩
    · exact h
    · exact absurd hmem (List.not_mem_nil rot)
  | cons r rest ih =>
    intro best h
    simp only [List.foldl_cons]
    rcases h with h | ⟨rot, hmem, hfit⟩
    · obtain ⟨b, hb⟩ := Option.isSome_iff_exists.mp h
      refine ih _ (Or.inl ?_)
      rw [hb]
      exact rotScan_isSome_of_some g buf [] uw uh margin step b r
    · rcases List.mem_cons.mp hmem with rfl | hmem'
      · exact ih _ (Or.inl (rotScan_isSome_of_fit g buf uw uh margin step rot
          hfit.1 hfit.2 best))
      · exact ih _ (Or.inr ⟨rot, hmem', hfit⟩)

lemma isOversized_false_witness (g : GeomOps K) (b : Poly K)
    (uw uh : K) (rotations : List ℤ) (hb : b ≠ [])
    (h : isOversized g b uw uh rotations = false) :
    ∃ rot ∈ rotations, pwR g b rot ≤ uw ∧ phR g b rot ≤ uh := by
  unfold isOversized at h
  rw [List.all_eq_false] at h
  obtain ⟨rot, hmem, hrot⟩ := h
  refine ⟨rot, hmem, ?_⟩
  simp only [Bool.not_eq_true, Bool.not_eq_false', Bool.and_eq_true,
    decide_eq_true_eq] at hrot
  rw [pwR_eq g b rot hb, phR_eq g b rot hb]
  exact hrot

lemma tryPlace_isSome_on_empty [FloorRing K] (g : GeomOps K) (inst : NestInstance K)
    (uw uh margin : K) (rotations : List ℤ)
    (hbuf : inst.buffered ≠ [])
    (hnotbig : isOversized g inst.buffered uw uh rotations = false) :
    (tryPlace g inst [] uw uh margin rotations).isSome := by
  have hfold := foldl_rotScan_isSome g inst.buffered uw uh margin
    (stepOf inst.buffered) rotations none
    (Or.inr (isOversized_false_witness g inst.buffered uw uh rotations hbuf hnotbig))
  simp only [tryPlace]
  obtain ⟨⟨y, x, rot⟩, hb⟩ := Option.isSome_iff_exists.mp hfold
  rw [hb]
  rfl

/-- The axis-aligned bounding box of `inner` is contained in that of
`outer`. -/
def BBoxWithin (inner outer : Poly K) : Prop :=
  boundsMinX outer ≤ boundsMinX inner ∧ boundsMaxX inner ≤ boundsMaxX outer ∧
  boundsMinY outer ≤ boundsMinY inner ∧ boundsMaxY inner ≤ boundsMaxY outer

instance (p q : Poly K) : Decidable (BBoxWithin p q) := by
  unfold BBoxWithin
  infer_instance

/-- Invariant of the best `(y, x, rotation)` triple threaded through the
rotation loop of `_try_place`: the rotation is admitted and the coordinates
lie on the scan grids of that rotation. -/
def PlacedOK [FloorRing K] (g : GeomOps K) (buffered : Poly K)
    (uw uh step : K) (rotations : List ℤ) (t : K × K × ℤ) : Prop :=
  t.2.2 ∈ rotations ∧
  t.2.1 ∈ gridVals step uw (pwR g buffered t.2.2) 0 (gridCount step uw) ∧
  t.1 ∈ gridVals step uh (phR g buffered t.2.2) 0 (gridCount step uh)

lemma rotScan_PlacedOK [FloorRing K] (g : GeomOps K) (buf : Poly K)
    (placed : List (Poly K)) (uw uh margin step : K) (rotations : List ℤ)
    (rot : ℤ) (hrot : rot ∈ rotations) (best : Option (K × K × ℤ))
    (hbest : ∀ b, best = some b → PlacedOK g buf uw uh step rotations b) :
    ∀ b, rotScan g buf placed uw uh margin step best rot = some b →
      PlacedOK g buf uw uh step rotations b := by
  intro b hb
  by_cases hg : pwR g buf rot > uw ∨ phR g buf rot > uh
  · simp only [rotScan] at hb
    rw [if_pos hg] at hb
    exact hbest b hb
  · simp only [rotScan] at hb
    rw [if_neg hg] at hb
    exact scanYs_prop (PlacedOK g buf uw uh step rotations) _ _ rot _ best hbest
      (fun y hy x hx _ => ⟨hrot, hx, hy⟩) b hb

lemma foldl_rotScan_PlacedOK [FloorRing K] (g : GeomOps K) (buf : Poly K)
    (placed : List (Poly K)) (uw uh margin step : K) (rotations : List ℤ) :
    ∀ (l : List ℤ), (∀ r ∈ l, r ∈ rotations) →
      ∀ best, (∀ b, best = some b → PlacedOK g buf uw uh step rotations b) →
      ∀ b, l.foldl (rotScan g buf placed uw uh margin step) best = some b →
        PlacedOK g buf uw uh step rotations b := by
  intro l
  induction l with
  | nil =>
    intro _ best hbest b hb
    exact hbest b hb
  | cons r rest ih =>
    intro hsub best hbest b hb
    simp only [List.foldl_cons] at hb
    exact ih (fun r' hr' => hsub r' (List.mem_cons_of_mem _ hr'))
      (rotScan g buf placed uw uh margin step best r)
      (rotScan_PlacedOK g buf placed uw uh margin step rotations r
        (hsub r (List.mem_cons_self _ _)) best hbest) b hb

lemma tryPlace_bounds [FloorRing K] (g : GeomOps K) (inst : NestInstance K)
    (placed : List (Poly K)) (uw uh margin : K) (rotations : List ℤ)
    (pl : Placement K) (fp : Poly K)
    (hbuf : inst.buffered ≠ []) (horig : inst.original ≠ [])
    (hbb : ∀ rot ∈ rotations,
      BBoxWithin (rotIfNZ g rot inst.original) (rotIfNZ g rot inst.buffered))
    (h : tryPlace g inst placed uw uh margin rotations = some (pl, fp)) :
    margin ≤ boundsMinX pl.polygon ∧
    boundsMaxX pl.polygon ≤ margin + uw + 1 / 1000 ∧
    margin ≤ boundsMinY pl.polygon ∧
    boundsMaxY pl.polygon ≤ margin + uh + 1 / 1000 := by
  simp only [tryPlace] at h
  cases hfold : rotations.foldl
      (rotScan g inst.buffered placed uw uh margin (stepOf inst.buffered)) none with
  | none =>
    rw [hfold] at h
    exact absurd h (by simp)
  | some t =>
    obtain ⟨y, x, rot⟩ := t
    rw [hfold] at h
    simp only [Option.some.injEq, Prod.mk.injEq] at h
    obtain ⟨hpl, _⟩ := h
    have hOK : PlacedOK g inst.buffered uw uh (stepOf inst.buffered) rotations (y, x, rot) :=
      foldl_rotScan_PlacedOK g inst.buffered placed uw uh margin
        (stepOf inst.buffered) rotations rotations (fun _ hr => hr) none
        (by simp) _ hfold
    obtain ⟨hrotmem, hxmem, hymem⟩ := hOK
    obtain ⟨i, hxi, hxle⟩ := (gridVals_zero_mem _ uw _ (stepOf_pos inst.buffered)
      (pwR_nonneg g inst.buffered rot) x).mp hxmem
    obtain ⟨j, hyj, hyle⟩ := (gridVals_zero_mem _ uh _ (stepOf_pos inst.buffered)
      (phR_nonneg g inst.buffered rot) y).mp hymem
    have hx0 : 0 ≤ x := by
      rw [hxi]
      exact mul_nonneg (Nat.cast_nonneg i) (le_of_lt (stepOf_pos inst.buffered))
    have hy0 : 0 ≤ y := by
      rw [hyj]
      exact mul_nonneg (Nat.cast_nonneg j) (le_of_lt (stepOf_pos inst.buffered))
    obtain ⟨hb1, hb2, hb3, hb4⟩ := hbb rot hrotmem
    have hro : rotIfNZ g rot inst.original ≠ [] := rotIfNZ_ne_nil g rot _ horig
    have hno : translateP (-(boundsMinX (rotIfNZ g rot inst.buffered)))
        (-(boundsMinY (rotIfNZ g rot inst.buffered)))
        (rotIfNZ g rot inst.original) ≠ [] := translateP_ne_nil _ _ _ hro
    have hpw := pwR_eq g inst.buffered rot hbuf
    have hph := phR_eq g inst.buffered rot hbuf
    rw [← hpl]
    simp only [boundsMinX_translateP _ _ _ hno, boundsMaxX_translateP _ _ _ hno,
      boundsMinY_translateP _ _ _ hno, boundsMaxY_translateP _ _ _ hno,
      boundsMinX_translateP _ _ _ hro, boundsMaxX_translateP _ _ _ hro,
      boundsMinY_translateP _ _ _ hro, boundsMaxY_translateP _ _ _ hro]
    refine ⟨by linarith, by linarith, by linarith, by linarith⟩

lemma insertDescBy_perm {α : Type} (key : α → K) (a : α) (l : List α) :
    List.Perm (insertDescBy key a l) (a :: l) := by
  induction l with
  | nil => exact List.Perm.refl _
  | cons b bs ih =>
    unfold insertDescBy
    split
    · exact (List.Perm.cons b ih).trans (List.Perm.swap a b bs)
    · exact List.Perm.refl _

lemma foldl_insertDescBy_perm {α : Type} (key : α → K) :
    ∀ (l acc : List α),
      List.Perm (l.foldl (fun acc a => insertDescBy key a acc) acc) (acc ++ l) := by
  intro l
  induction l with
  | nil => intro acc; simp
  | cons a l ih =>
    intro acc
    simp only [List.foldl_cons]
    refine (ih (insertDescBy key a acc)).trans ?_
    refine (List.Perm.append_right l (insertDescBy_perm key a acc)).trans ?_
    exact List.perm_middle.symm

lemma sortDescBy_perm {α : Type} (key : α → K) (l : List α) :
    List.Perm (sortDescBy key l) l := by
  simpa using foldl_insertDescBy_perm key l []

lemma mem_sortedInstances_iff (g : GeomOps K) (parts : List (PartSpec K))
    (spacing : K) (inst : NestInstance K) :
    inst ∈ sortedInstances g parts spacing ↔ inst ∈ buildInstances g parts spacing :=
  (sortDescBy_perm _ _).mem_iff

lemma mem_buildInstances (g : GeomOps K) (parts : List (PartSpec K)) (spacing : K)
    (inst : NestInstance K) (h : inst ∈ buildInstances g parts spacing) :
    ∃ part ∈ parts, inst.id = part.id ∧ inst.original = part.polygon ∧
      inst.buffered = g.buffer part.polygon (spacing / 2) ∧
      g.isValid inst.buffered = true ∧ inst.buffered.isEmpty = false := by
  unfold buildInstances at h
  rw [List.mem_flatMap] at h
  obtain ⟨part, hp, hin⟩ := h
  by_cases hc : (! g.isValid (g.buffer part.polygon (spacing / 2))
      || (g.buffer part.polygon (spacing / 2)).isEmpty) = true
  · rw [if_pos hc] at hin
    exact absurd hin (List.not_mem_nil inst)
  · rw [if_neg hc] at hin
    rw [List.mem_map] at hin
    obtain ⟨i, _, rfl⟩ := hin
    simp only [Bool.or_eq_true, Bool.not_eq_true', not_or, Bool.not_eq_false] at hc
    exact ⟨part, hp, rfl, rfl, rfl, hc.1, Bool.not_eq_true _ ▸ Bool.of_not_eq_true hc.2⟩

lemma mem_placeableList (g : GeomOps K) (si : List (NestInstance K))
    (uw uh : K) (rotations : List ℤ) (inst : NestInstance K)
    (h : inst ∈ placeableList g si uw uh rotations) : inst ∈ si :=
  (List.mem_filter.mp h).1

lemma placeable_not_oversized (g : GeomOps K) (si : List (NestInstance K))
    (uw uh : K) (rotations : List ℤ) (inst : NestInstance K)
    (h : inst ∈ placeableList g si uw uh rotations) :
    isOversized g inst.buffered uw uh rotations = false := by
  obtain ⟨hsi, hflt⟩ := List.mem_filter.mp h
  cases hov : isOversized g inst.buffered uw uh rotations with
  | false => rfl
  | true =>
    exfalso
    have hmem : inst ∈ oversizedList g si uw uh rotations :=
      List.mem_filter.mpr ⟨hsi, hov⟩
    have hkey := List.mem_map_of_mem (fun i : NestInstance K => (i.id, i.instNo)) hmem
    rw [Bool.not_eq_true', decide_eq_false_iff_not] at hflt
    exact hflt hkey

lemma ne_nil_of_isEmpty_false {α : Type} (l : List α) (h : l.isEmpty = false) :
    l ≠ [] := by
  cases l <;> simp_all

lemma nestLoop_skips_reason [FloorRing K] (g : GeomOps K)
    (sheetW sheetH uw uh margin : K) (rotations : List ℤ) :
    ∀ (l : List (NestInstance K)) (st : NestState K),
      (∀ inst ∈ l, inst.buffered ≠ [] ∧
        isOversized g inst.buffered uw uh rotations = false) →
      (∀ sp ∈ st.skips, sp.reason ≠ "Could not fit on any sheet") →
      ∀ sp ∈ (l.foldl (nestStep g sheetW sheetH uw uh margin rotations) st).skips,
        sp.reason ≠ "Could not fit on any sheet" := by
  intro l
  induction l with
  | nil =>
    intro st _ hst sp hsp
    exact hst sp hsp
  | cons inst l ih =>
    intro st hl hst sp hsp
    simp only [List.foldl_cons] at hsp
    refine ih (nestStep g sheetW sheetH uw uh margin rotations st inst)
      (fun i hi => hl i (List.mem_cons_of_mem _ hi)) ?_ sp hsp
    intro sp' hsp'
    obtain ⟨hbuf, hov⟩ := hl inst (List.mem_cons_self _ _)
    cases h1 : tryPlace g inst st.curPolys uw uh margin rotations with
    | some pr =>
      obtain ⟨pl, poly⟩ := pr
      simp only [nestStep, h1] at hsp'
      exact hst sp' hsp'
    | none =>
      cases h2 : tryPlace g inst [] uw uh margin rotations with
      | some pr =>
        obtain ⟨pl, poly⟩ := pr
        simp only [nestStep, h1, h2] at hsp'
        exact hst sp' hsp'
      | none =>
        exact absurd
          (tryPlace_isSome_on_empty g inst uw uh margin rotations hbuf hov)
          (by rw [h2]; simp)

lemma mem_reindexSheets (s' : SheetResult K) :
    ∀ (n : ℕ) (l : List (SheetResult K)), s' ∈ reindexSheets n l →
      ∃ s ∈ l, s'.placements = s.placements := by
  intro n l
  induction l generalizing n with
  | nil => intro h; simp [reindexSheets] at h
  | cons s rest ih =>
    intro h
    rw [reindexSheets] at h
    rcases List.mem_cons.mp h with h1 | h2
    · exact ⟨s, List.mem_cons_self _ _, by rw [h1]⟩
    · obtain ⟨t, ht, he⟩ := ih (n + 1) h2
      exact ⟨t, List.mem_cons_of_mem _ ht, he⟩

lemma finalizeSheets_mem (usableArea : K) (l : List (SheetResult K))
    (s' : SheetResult K) (h : s' ∈ finalizeSheets usableArea l) :
    ∃ s ∈ l, s'.placements = s.placements := by
  unfold finalizeSheets at h
  obtain ⟨t, ht, he⟩ := mem_reindexSheets s' 0 _ h
  obtain ⟨htl, _⟩ := List.mem_filter.mp ht
  rw [List.mem_map] at htl
  obtain ⟨s, hs, rfl⟩ := htl
  exact ⟨s, hs, by simpa using he⟩

lemma reindexSheets_lengths :
    ∀ (n : ℕ) (l : List (SheetResult K)),
      ((reindexSheets n l).map (fun s => s.placements.length)).sum
        = (l.map (fun s => s.placements.length)).sum := by
  intro n l
  induction l generalizing n with
  | nil => rfl
  | cons s rest ih =>
    rw [reindexSheets]
    simp only [List.map_cons, List.sum_cons]
    rw [ih (n + 1)]

lemma filter_nonempty_lengths (l : List (SheetResult K)) :
    ((l.filter (fun s => ! s.placements.isEmpty)).map
      (fun s => s.placements.length)).sum
      = (l.map (fun s => s.placements.length)).sum := by
  induction l with
  | nil => rfl
  | cons s rest ih =>
    by_cases h : s.placements.isEmpty
    · have hlen : s.placements.length = 0 := by
        rw [List.isEmpty_iff] at h
        simp [h]
      simp [List.filter_cons, h, ih, hlen]
    · simp only [Bool.not_eq_true] at h
      simp [List.filter_cons, h, ih]

lemma finalizeSheets_total (usableArea : K) (l : List (SheetResult K)) :
    ((finalizeSheets usableArea l).map (fun s => s.placements.length)).sum
      = (l.map (fun s => s.placements.length)).sum := by
  unfold finalizeSheets
  rw [reindexSheets_lengths, filter_nonempty_lengths, List.map_map]
  rfl

/-- Number of placements held in the placement-loop state. -/
def placedCountSt (st : NestState K) : ℕ :=
  ((st.finished.map (fun p => p.1.placements.length)).sum) + st.cur.placements.length

lemma nestStep_count [FloorRing K] (g : GeomOps K)
    (sheetW sheetH uw uh margin : K) (rotations : List ℤ)
    (st : NestState K) (inst : NestInstance K) :
    placedCountSt (nestStep g sheetW sheetH uw uh margin rotations st inst)
      + (nestStep g sheetW sheetH uw uh margin rotations st inst).skips.length
      = placedCountSt st + st.skips.length + 1 := by
  cases h1 : tryPlace g inst st.curPolys uw uh margin rotations with
  | some pr =>
    obtain ⟨pl, poly⟩ := pr
    simp only [nestStep, h1, placedCountSt, List.length_append]
    simp
    omega
  | none =>
    cases h2 : tryPlace g inst [] uw uh margin rotations with
    | some pr =>
      obtain ⟨pl, poly⟩ := pr
      simp only [nestStep, h1, h2, placedCountSt, List.map_append, List.sum_append,
        List.map_cons, List.sum_cons, List.length_cons, List.length_append]
      simp
      omega
    | none =>
      simp only [nestStep, h1, h2, placedCountSt, List.map_append, List.sum_append,
        List.map_cons, List.sum_cons, List.length_append]
      simp
      omega

lemma foldl_nestStep_count [FloorRing K] (g : GeomOps K)
    (sheetW sheetH uw uh margin : K) (rotations : List ℤ) :
    ∀ (l : List (NestInstance K)) (st : NestState K),
      placedCountSt (l.foldl (nestStep g sheetW sheetH uw uh margin rotations) st)
        + (l.foldl (nestStep g sheetW sheetH uw uh margin rotations) st).skips.length
        = placedCountSt st + st.skips.length + l.length := by
  intro l
  induction l with
  | nil => intro st; simp
  | cons inst l ih =>
    intro st
    simp only [List.foldl_cons, List.length_cons]
    rw [ih (nestStep g sheetW sheetH uw uh margin rotations st inst),
      nestStep_count g sheetW sheetH uw uh margin rotations st inst]
    omega

/-- The quantity a part contributes to the instance list: zero when the
buffered polygon is invalid or empty (the code silently drops such parts),
its full quantity otherwise. -/
def countedQuantity (g : GeomOps K) (spacing : K) (part : PartSpec K) : ℕ :=
  if ! g.isValid (g.buffer part.polygon (spacing / 2))
      || (g.buffer part.polygon (spacing / 2)).isEmpty then 0
  else part.quantity

lemma buildInstances_length (g : GeomOps K) (spacing : K) :
    ∀ (parts : List (PartSpec K)),
      (buildInstances g parts spacing).length
        = (parts.map (countedQuantity g spacing)).sum := by
  intro parts
  induction parts with
  | nil => rfl
  | cons p ps ih =>
    unfold buildInstances at ih ⊢
    rw [List.flatMap_cons, List.length_append, ih]
    simp only [List.map_cons, List.sum_cons, countedQuantity]
    split <;> simp

lemma buildInstances_cons (g : GeomOps K) (spacing : K) (p : PartSpec K)
    (ps : List (PartSpec K)) :
    buildInstances g (p :: ps) spacing =
      (if ! g.isValid (g.buffer p.polygon (spacing / 2))
          || (g.buffer p.polygon (spacing / 2)).isEmpty then []
        else (List.range p.quantity).map
          (fun i => (⟨p.id, i + 1, p.polygon, g.buffer p.polygon (spacing / 2)⟩ :
            NestInstance K)))
      ++ buildInstances g ps spacing := by
  unfold buildInstances
  rw [List.flatMap_cons]

lemma buildInstances_keys_nodup (g : GeomOps K) (spacing : K) :
    ∀ (parts : List (PartSpec K)), (parts.map PartSpec.id).Nodup →
      ((buildInstances g parts spacing).map (fun i => (i.id, i.instNo))).Nodup := by
  intro parts
  induction parts with
  | nil =>
    intro _
    simp [buildInstances]
  | cons p ps ih =>
    intro hnd
    rw [List.map_cons, List.nodup_cons] at hnd
    obtain ⟨hpid, hps⟩ := hnd
    rw [buildInstances_cons, List.map_append]
    have hdisj : ∀ k, k ∈ (if ! g.isValid (g.buffer p.polygon (spacing / 2))
          || (g.buffer p.polygon (spacing / 2)).isEmpty then ([] : List (NestInstance K))
          else (List.range p.quantity).map
            (fun i => (⟨p.id, i + 1, p.polygon, g.buffer p.polygon (spacing / 2)⟩ :
              NestInstance K))).map (fun i => (i.id, i.instNo)) →
        k ∈ ((buildInstances g ps spacing).map (fun i => (i.id, i.instNo))) → False := by
      intro k hk1 hk2
      have hk1id : k.1 = p.id := by
        split at hk1
        · simp at hk1
        · rw [List.map_map, List.mem_map] at hk1
          obtain ⟨i, _, rfl⟩ := hk1
          rfl
      rw [List.mem_map] at hk2
      obtain ⟨j, hj, rfl⟩ := hk2
      obtain ⟨part, hpmem, hid, _⟩ := mem_buildInstances g ps spacing j hj
      exact hpid (by
        rw [List.mem_map]
        exact ⟨part, hpmem, by rw [← hid, ← hk1id]⟩)
    refine List.Nodup.append ?_ (ih hps) hdisj
    · split
      · simp
      · rw [List.map_map]
        refine List.Nodup.map ?_ (List.nodup_range p.quantity)
        intro a b hab
        simp only [Function.comp_apply, Prod.mk.injEq] at hab
        omega

lemma oversizedKey_iff (g : GeomOps K) (si : List (NestInstance K))
    (uw uh : K) (rotations : List ℤ)
    (hnd : (si.map (fun i => (i.id, i.instNo))).Nodup)
    (inst : NestInstance K) (h : inst ∈ si) :
    ((inst.id, inst.instNo) ∈
        (oversizedList g si uw uh rotations).map (fun i => (i.id, i.instNo)))
      ↔ isOversized g inst.buffered uw uh rotations = true := by
  constructor
  · intro hk
    rw [List.mem_map] at hk
    obtain ⟨j, hj, hkey⟩ := hk
    obtain ⟨hjsi, hjov⟩ := List.mem_filter.mp hj
    have hji : j = inst := List.inj_on_of_nodup_map hnd hjsi h hkey
    exact hji ▸ hjov
  · intro hov
    exact List.mem_map_of_mem _ (List.mem_filter.mpr ⟨h, hov⟩)

lemma placeable_oversized_length (g : GeomOps K) (si : List (NestInstance K))
    (uw uh : K) (rotations : List ℤ)
    (hnd : (si.map (fun i => (i.id, i.instNo))).Nodup) :
    (placeableList g si uw uh rotations).length
      + (oversizedList g si uw uh rotations).length = si.length := by
  have hcongr : ∀ i ∈ si,
      (! decide ((i.id, i.instNo) ∈
        (oversizedList g si uw uh rotations).map (fun i => (i.id, i.instNo))))
      = ! isOversized g i.buffered uw uh rotations := by
    intro i hi
    cases hov : isOversized g i.buffered uw uh rotations with
    | true =>
      have := (oversizedKey_iff g si uw uh rotations hnd i hi).mpr hov
      simp [this]
    | false =>
      have : ¬ ((i.id, i.instNo) ∈
          (oversizedList g si uw uh rotations).map (fun i => (i.id, i.instNo))) := by
        intro hk
        rw [oversizedKey_iff g si uw uh rotations hnd i hi] at hk
        rw [hov] at hk
        exact Bool.false_ne_true hk
      simp [this]
  unfold placeableList
  rw [List.filter_congr hcongr]
  have hperm := List.filter_append_perm
    (fun i => isOversized g i.buffered uw uh rotations) si
  have hlen := hperm.length_eq
  rw [List.length_append] at hlen
  unfold oversizedList
  omega

/-- Whether a parse outcome is a raised exception. -/
def isRaised : ParseOutcome K → Bool
  | .raised _ => true
  | .ok _ => false

/-- What one downloaded item contributes to the nest: `none` when the
reader returned no polygons, otherwise the part built from the first
polygon (matching the parse loop of `process_nest_task`). -/
def pickPart (parse : String → ParseOutcome K) (it : NestJobItem) :
    Option (PartSpec K) :=
  match parse it.itemNumber with
  | .ok (p :: _) => some ⟨it.itemNumber, p, it.quantity⟩
  | .ok [] => none
  | .raised _ => none

lemma collectParts_no_raise (parse : String → ParseOutcome K) :
    ∀ (items : List NestJobItem),
      (∀ it ∈ items, isRaised (parse it.itemNumber) = false) →
      collectParts parse items = .ok (items.filterMap (pickPart parse)) := by
  intro items
  induction items with
  | nil => intro _; rfl
  | cons it rest ih =>
    intro h
    have hrest := fun it' h' => h it' (List.mem_cons_of_mem _ h')
    cases hp : parse it.itemNumber with
    | raised m =>
      have hc := h it (List.mem_cons_self _ _)
      rw [hp] at hc
      exact absurd hc (by simp [isRaised])
    | ok polys =>
      cases polys with
      | nil =>
        simp only [collectParts, hp]
        rw [ih hrest, List.filterMap_cons]
        simp [pickPart, hp]
      | cons p ps =>
        simp only [collectParts, hp]
        rw [ih hrest, List.filterMap_cons]
        simp [pickPart, hp, Except.map]

/-- The rows marked `completed` by a task outcome ([] when failed). -/
def rowsOf : TaskOutcome K → List (List (String × FieldVal K))
  | .completed rows _ _ => rows
  | .failed _ => []

/-- The storage paths uploaded by a task outcome ([] when failed). -/
def uploadsOf : TaskOutcome K → List String
  | .completed _ uploads _ => uploads
  | .failed _ => []

/-- Whether the task outcome is `completed`. -/
def isCompleted : TaskOutcome K → Bool
  | .completed _ _ _ => true
  | .failed _ => false

/-- Bounds of a single placement used by the boundedness invariant,
relative to the usable area. -/
def placementBounded (margin uw uh : K) (pl : Placement K) : Prop :=
  margin ≤ boundsMinX pl.polygon ∧
  boundsMaxX pl.polygon ≤ margin + uw + 1 / 1000 ∧
  margin ≤ boundsMinY pl.polygon ∧
  boundsMaxY pl.polygon ≤ margin + uh + 1 / 1000

lemma nestLoop_bounds [FloorRing K] (g : GeomOps K)
    (sheetW sheetH uw uh margin : K) (rotations : List ℤ) :
    ∀ (l : List (NestInstance K)) (st : NestState K),
      (∀ inst ∈ l, inst.buffered ≠ [] ∧ inst.original ≠ [] ∧
        (∀ rot ∈ rotations,
          BBoxWithin (rotIfNZ g rot inst.original) (rotIfNZ g rot inst.buffered))) →
      (∀ s ∈ (st.finished.map Prod.fst) ++ [st.cur], ∀ pl ∈ s.placements,
        placementBounded margin uw uh pl) →
      ∀ s ∈ (((l.foldl (nestStep g sheetW sheetH uw uh margin rotations) st).finished.map
          Prod.fst) ++ [(l.foldl (nestStep g sheetW sheetH uw uh margin rotations) st).cur]),
        ∀ pl ∈ s.placements, placementBounded margin uw uh pl := by
  intro l
  induction l with
  | nil =>
    intro st _ hst
    exact hst
  | cons inst l ih =>
    intro st hl hst
    simp only [List.foldl_cons]
    refine ih (nestStep g sheetW sheetH uw uh margin rotations st inst)
      (fun i hi => hl i (List.mem_cons_of_mem _ hi)) ?_
    obtain ⟨hbuf, horig, hbb⟩ := hl inst (List.mem_cons_self _ _)
    intro s hs pl hpl
    cases h1 : tryPlace g inst st.curPolys uw uh margin rotations with
    | some pr =>
      obtain ⟨pl1, poly1⟩ := pr
      simp only [nestStep, h1] at hs
      rcases List.mem_append.mp hs with hfin | hcur
      · exact hst s (List.mem_append.mpr (Or.inl (by simpa using hfin))) pl hpl
      · have hscur : s = { st.cur with placements := st.cur.placements ++ [pl1] } := by
          simpa using hcur
        rw [hscur] at hpl
        simp only [List.mem_append, List.mem_singleton] at hpl
        rcases hpl with hold | rfl
        · exact hst st.cur (List.mem_append.mpr (Or.inr (by simp))) pl hold
        · obtain ⟨b1, b2, b3, b4⟩ := tryPlace_bounds g inst st.curPolys uw uh margin
            rotations pl poly1 hbuf horig hbb h1
          exact ⟨b1, b2, b3, b4⟩
    | none =>
      cases h2 : tryPlace g inst [] uw uh margin rotations with
      | some pr =>
        obtain ⟨pl2, poly2⟩ := pr
        simp only [nestStep, h1, h2] at hs
        rcases List.mem_append.mp hs with hfin | hcur
        · rw [List.map_append] at hfin
          rcases List.mem_append.mp hfin with hfin1 | hfin2
          · exact hst s (List.mem_append.mpr (Or.inl hfin1)) pl hpl
          · have : s = st.cur := by simpa using hfin2
            exact hst s (this ▸ List.mem_append.mpr (Or.inr (by simp [this]))) pl hpl
        · have hscur : s.placements = [pl2] := by
            have hs2 : s = (⟨st.finished.length + 2, sheetW, sheetH, [pl2], 0⟩ :
                SheetResult K) := by
              simpa using hcur
            rw [hs2]
          rw [hscur] at hpl
          rw [List.mem_singleton] at hpl
          subst hpl
          obtain ⟨b1, b2, b3, b4⟩ := tryPlace_bounds g inst [] uw uh margin
            rotations pl poly2 hbuf horig hbb h2
          exact ⟨b1, b2, b3, b4⟩
      | none =>
        simp only [nestStep, h1, h2] at hs
        rcases List.mem_append.mp hs with hfin | hcur
        · rw [List.map_append] at hfin
          rcases List.mem_append.mp hfin with hfin1 | hfin2
          · exact hst s (List.mem_append.mpr (Or.inl hfin1)) pl hpl
          · have : s = st.cur := by simpa using hfin2
            exact hst s (this ▸ List.mem_append.mpr (Or.inr (by simp [this]))) pl hpl
        · have : s.placements = [] := by
            have hs2 : s = (⟨st.finished.length + 2, sheetW, sheetH, [], 0⟩ :
                SheetResult K) := by
              simpa using hcur
            rw [hs2]
          rw [this] at hpl
          exact absurd hpl (List.not_mem_nil pl)

/-! ### Claim theorems

The concrete evaluations below are settled by `decide`, which requires the
kernel to unfold rational arithmetic; Batteries marks the `Rat` operations
`@[irreducible]` for the elaborator only, so we restore the default
transparency locally (the kernel itself always unfolds them). -/

attribute [local semireducible] Rat.mul Rat.inv Rat.add Rat.sub

/-- Claim C7: for any two runs of the nester on identical inputs and
parameter values (including the same geometry backend), the outputs are
identical — the same sheets, placements (x, y, rotation) and utilization
values.  The embedding is a pure function of its inputs: the algorithm uses
no randomness, so equal inputs give equal outputs. -/
theorem c7_deterministic [FloorRing K] (g g' : GeomOps K)
    (parts parts' : List (PartSpec K))
    (sheetW sheetH spacing margin sheetW' sheetH' spacing' margin' : K)
    (rotationStep rotationStep' : ℤ)
    (hg : g = g') (hparts : parts = parts') (hw : sheetW = sheetW')
    (hh : sheetH = sheetH') (hs : spacing = spacing') (hm : margin = margin')
    (hr : rotationStep = rotationStep') :
    nestParts g parts sheetW sheetH spacing margin rotationStep
      = nestParts g' parts' sheetW' sheetH' spacing' margin' rotationStep' := by
  subst hg hparts hw hh hs hm hr
  rfl

/-- Claim C7 witness: two runs on an identical concrete input coincide. -/
theorem c7_deterministic_witness :
    nestParts rectGeom [⟨"P1", [(0,0),(2,0),(2,2),(0,2)], 1⟩] 10 10 (1/8) (1/2) 0
      = nestParts rectGeom [⟨"P1", [(0,0),(2,0),(2,2),(0,2)], 1⟩] 10 10 (1/8) (1/2) 0 :=
  c7_deterministic rectGeom rectGeom _ _ 10 10 (1/8) (1/2) 10 10 (1/8) (1/2) 0 0
    rfl rfl rfl rfl rfl rfl rfl

/-- Claim C9: for every ARC entity the DXF reader accepts (the arc length
is at least the chord tolerance, so the result is non-empty), the arc is
discretized between its start and end angles into
`N = min(max(2, ceil(arc_length / chord_tol)), 360)` chords — the point
list has `N + 1` points — where `start ≥ end` (in radians) is handled by
adding `2π` to the end angle. -/
theorem c9_arc_chords [FloorRing K] (pi : K) (cosF sinF : K → K)
    (cx cy radius startDeg endDeg chordTol : K)
    (hacc : chordTol ≤ radius *
      ((if startDeg * pi / 180 ≥ endDeg * pi / 180
        then endDeg * pi / 180 + 2 * pi else endDeg * pi / 180)
        - startDeg * pi / 180)) :
    (discretizeArc pi cosF sinF cx cy radius startDeg endDeg chordTol).length
      = (min (max 2 (Int.ceil (radius *
          ((if startDeg * pi / 180 ≥ endDeg * pi / 180
            then endDeg * pi / 180 + 2 * pi else endDeg * pi / 180)
            - startDeg * pi / 180) / chordTol))) 360).toNat + 1 := by
  simp only [ge_iff_le] at hacc ⊢
  simp only [discretizeArc]
  rw [if_neg (not_lt.mpr hacc)]
  simp only [List.length_map, List.length_range]

/-- Claim C9 witness: a quarter arc of radius 5 with chord tolerance 1/2
(and the abstract π valued 3) is split into 10 chords: 11 points. -/
theorem c9_arc_chords_witness :
    ((1 : ℚ)/2 ≤ 5 *
      ((if (0 : ℚ) * 3 / 180 ≥ 60 * 3 / 180
        then 60 * 3 / 180 + 2 * 3 else 60 * 3 / 180) - 0 * 3 / 180)) ∧
    (discretizeArc (3 : ℚ) (fun _ => 0) (fun _ => 0) 0 0 5 0 60 (1/2)).length = 11 := by
  refine ⟨by norm_num, ?_⟩
  rw [c9_arc_chords (3 : ℚ) (fun _ => 0) (fun _ => 0) 0 0 5 0 60 (1/2) (by norm_num)]
  decide

/-- The original polygon of the C2 instance: a right triangle with
centroid (4/3, 4/3). -/
def c2tri : Poly ℚ := [(0,0),(4,0),(0,4)]

/-- The buffered polygon of the C2 instance: a square with centroid
(3, 3) (a stand-in for a buffered polygon whose centroid differs from the
original's, as happens for any asymmetric part). -/
def c2sq : Poly ℚ := [(0,0),(6,0),(6,6),(0,6)]

/-- A part instance whose original and buffered polygons have different
centroids. -/
def c2inst : NestInstance ℚ := ⟨"A", 1, c2tri, c2sq⟩

/-- Claim C2 counterexample: with rotation 180° (admitted when
`rotation_step = 180`; cos 180° = −1, sin 180° = 0 exactly), the rotated
buffered polygon the nester computes (`rotIfNZ`, which rotates about the
buffered polygon's own centroid) is not the buffered polygon rotated about
the centroid of the original polygon, as the claim states: the two results
even have different bounding boxes (min-x 0 versus −10/3). -/
theorem c2_counterexample :
    (180 : ℤ) ∈ rotationsList 180 ∧
    centroidP c2inst.buffered ≠ centroidP c2inst.original ∧
    rotIfNZ rectGeom 180 c2inst.buffered ≠
      c2inst.buffered.map
        (rotPt (rectGeom.C 180) (rectGeom.S 180) (centroidP c2inst.original)) ∧
    boundsMinX (rotIfNZ rectGeom 180 c2inst.buffered) = 0 ∧
    boundsMinX (c2inst.buffered.map
      (rotPt (rectGeom.C 180) (rectGeom.S 180) (centroidP c2inst.original))) = -10/3 := by
  decide

/-- Claim C2 amended: at every non-zero admitted rotation the nester
rotates the original and the buffered polygon each about its **own**
centroid (Shapely's `origin="centroid"` of the geometry being rotated);
the two pivots coincide — and hence the claim's wording holds — exactly
when the buffered polygon's centroid equals the original's. -/
theorem c2_amended (g : GeomOps K) (inst : NestInstance K) (rot : ℤ)
    (hrot : rot ≠ 0) :
    rotIfNZ g rot inst.buffered =
      inst.buffered.map (rotPt (g.C rot) (g.S rot) (centroidP inst.buffered)) ∧
    rotIfNZ g rot inst.original =
      inst.original.map (rotPt (g.C rot) (g.S rot) (centroidP inst.original)) ∧
    (centroidP inst.buffered = centroidP inst.original →
      rotIfNZ g rot inst.buffered =
        inst.buffered.map (rotPt (g.C rot) (g.S rot) (centroidP inst.original))) := by
  refine ⟨?_, ?_, ?_⟩
  · rw [rotIfNZ, if_pos hrot, rotateDeg, shapelyRotate]
  · rw [rotIfNZ, if_pos hrot, rotateDeg, shapelyRotate]
  · intro hc
    rw [rotIfNZ, if_pos hrot, rotateDeg, shapelyRotate, hc]

/-- A C2-witness instance whose original and buffered polygons share the
centroid (1, 1). -/
def c2winst : NestInstance ℚ :=
  ⟨"W", 1, [(0,0),(2,0),(2,2),(0,2)], [(-1,-1),(3,-1),(3,3),(-1,3)]⟩

/-- Claim C2 amended, witness at a concrete instance with coinciding
centroids and rotation 180°. -/
theorem c2_amended_witness :
    (180 : ℤ) ≠ 0 ∧
    (rotIfNZ rectGeom 180 c2winst.buffered =
      c2winst.buffered.map
        (rotPt (rectGeom.C 180) (rectGeom.S 180) (centroidP c2winst.buffered)) ∧
    rotIfNZ rectGeom 180 c2winst.original =
      c2winst.original.map
        (rotPt (rectGeom.C 180) (rectGeom.S 180) (centroidP c2winst.original)) ∧
    (centroidP c2winst.buffered = centroidP c2winst.original →
      rotIfNZ rectGeom 180 c2winst.buffered =
        c2winst.buffered.map
          (rotPt (rectGeom.C 180) (rectGeom.S 180) (centroidP c2winst.original)))) :=
  ⟨by decide, c2_amended rectGeom c2winst 180 (by decide)⟩

/-- The job row for the C1 evaluation. -/
def c1job : NestJobRow ℚ := ⟨"job-1", "steel", 1/4, 10, 10, 1/8, 1/2, 0, "projects/p/nests/j1/"⟩

/-- The worker outcome for a one-item job whose DXF parses to a 2×2
square: the code path of `process_nest_task` steps 4–10. -/
def c1run : TaskOutcome ℚ :=
  processNestTask rectGeom c1job [⟨"P1", 1⟩] (fun _ => true)
    (fun _ => ParseOutcome.ok [[(0,0),(2,0),(2,2),(0,2)]])

/-- Claim C1, evaluated at the failing input: the worker completes the job
but uploads only the sheet DXF and the manifest — no `.svg` path is ever
uploaded — and the recorded `nest_results` row carries exactly the keys
`nest_job_id, sheet_index, dxf_path, utilization, parts_on_sheet,
placements`: there is no `svg_path` key.  (`svg_writer.py` exists but is
never imported by the worker, while the backend's nest-preview endpoint
reads `svg_path` from `nest_results`.) -/
theorem c1_no_svg_outputs :
    isCompleted c1run = true ∧
    uploadsOf c1run = ["projects/p/nests/j1/sheet_01.dxf",
      "projects/p/nests/j1/manifest.json"] ∧
    (rowsOf c1run).map (fun r => r.map Prod.fst)
      = [["nest_job_id", "sheet_index", "dxf_path", "utilization",
          "parts_on_sheet", "placements"]] := by
  decide

/-- A stand-in placement polygon for a placed unit-radius disc: the
square spanning its bounding box [10, 12] × [10, 12]. -/
def c5placement : Poly ℚ := [(10,10),(12,10),(12,12),(10,12)]

/-- Claim C5, evaluated at the failing input: for a source DXF consisting
of a single CIRCLE (center (0,0), radius 1) and rotation 0, the writer's
collected point set is just the circle's center, so the written CIRCLE is
centered exactly at the bounding-box **minimum** of the placement polygon
(10, 10) — one radius below-left of where the placed disc lies — while the
placement polygon extends to x = 12.  Re-reading the written sheet
therefore yields a circle displaced by about (1, 1) from the placement
polygon, with Hausdorff distance ≈ √2, far above the 0.01 chord
tolerance. -/
theorem c5_circle_misaligned :
    insertPartFromDxf rectGeom [DxfEntity.circle (0, 0) 1] c5placement 0
      = some [DxfEntity.circle (10, 10) 1] ∧
    boundsMinX c5placement = 10 ∧ boundsMaxX c5placement = 12 := by
  decide

/-- Claim C8 counterexample: for a 1×1 buffered part the step is
`max(0.25, min(1,1)/4) = 0.25` — and on a sheet with usable height
2499/2000 the code's outer loop scans the row `y = 1/4` even though
`1/4 + 1 > 2499/2000`: the loops run while `y + ph ≤ usable + 0.001`, not
while `y + ph ≤ usable` as the claim states. -/
theorem c8_counterexample :
    stepOf ([(0,0),(1,0),(1,1),(0,1)] : Poly ℚ) = 1/4 ∧
    (1/4 : ℚ) ∈ gridVals ((1 : ℚ)/4) ((2499 : ℚ)/2000) (1 : ℚ) (0 : ℚ)
      (gridCount ((1 : ℚ)/4) ((2499 : ℚ)/2000)) ∧
    ¬((1/4 : ℚ) + 1 ≤ 2499/2000) := by
  decide

/-- Claim C8 amended: the grid step is computed once per `_try_place`
call, from the **unrotated** buffered bounding box, as
`stepOf = max(0.25, min(part_w, part_h)/4)`; for every rotation, the
candidate coordinates scanned by the loops are exactly the multiples of
that step `v` with `v + size ≤ usable + 0.001` (size being the normalized
rotated width `pw` for the inner loop and height `ph` for the outer
loop). -/
theorem c8_amended [FloorRing K] (g : GeomOps K) (b : Poly K)
    (usableW usableH : K) (rot : ℤ) (u v : K) :
    (u ∈ gridVals (stepOf b) usableW (pwR g b rot) 0 (gridCount (stepOf b) usableW) ↔
      ∃ i : ℕ, u = (i : K) * stepOf b ∧ u + pwR g b rot ≤ usableW + 1 / 1000) ∧
    (v ∈ gridVals (stepOf b) usableH (phR g b rot) 0 (gridCount (stepOf b) usableH) ↔
      ∃ j : ℕ, v = (j : K) * stepOf b ∧ v + phR g b rot ≤ usableH + 1 / 1000) :=
  ⟨gridVals_zero_mem (stepOf b) usableW (pwR g b rot) (stepOf_pos b)
      (pwR_nonneg g b rot) u,
    gridVals_zero_mem (stepOf b) usableH (phR g b rot) (stepOf_pos b)
      (phR_nonneg g b rot) v⟩

/-- Claim C10: the skip branch with reason "Could not fit on any sheet"
in `nest_parts` is unreachable: every instance that survives the oversize
pre-filter is placed — on a freshly opened empty sheet the fitting
rotation (which exists by the pre-filter, computed with the same bounds
arithmetic) is accepted at grid position (0, 0) with no collision
candidates. -/
theorem c10_no_unfit_skip [FloorRing K] (g : GeomOps K)
    (parts : List (PartSpec K)) (sheetW sheetH spacing margin : K)
    (rotationStep : ℤ) :
    ∀ sp ∈ (nestParts g parts sheetW sheetH spacing margin rotationStep).skipped,
      sp.reason ≠ "Could not fit on any sheet" := by
  intro sp hsp
  simp only [nestParts] at hsp
  by_cases hcond : (sheetW - 2 * margin ≤ 0 ∨ sheetH - 2 * margin ≤ 0)
  · rw [if_pos hcond] at hsp
    simp at hsp
  · rw [if_neg hcond] at hsp
    refine nestLoop_skips_reason g sheetW sheetH (sheetW - 2 * margin)
      (sheetH - 2 * margin) margin (rotationsList rotationStep)
      (placeableList g (sortedInstances g parts spacing) (sheetW - 2 * margin)
        (sheetH - 2 * margin) (rotationsList rotationStep))
      ⟨[], ⟨1, sheetW, sheetH, [], 0⟩, [],
        (oversizedList g (sortedInstances g parts spacing) (sheetW - 2 * margin)
          (sheetH - 2 * margin) (rotationsList rotationStep)).map
          (fun i => (⟨i.id, i.instNo, "Too large for sheet at any rotation"⟩ :
            SkippedPart))⟩
      ?_ ?_ sp (by unfold nestLoopRun at hsp; exact hsp)
    · intro inst hinst
      refine ⟨?_, placeable_not_oversized g _ _ _ _ inst hinst⟩
      have hsi := mem_placeableList g _ _ _ _ inst hinst
      rw [mem_sortedInstances_iff] at hsi
      obtain ⟨part, _, _, _, _, _, hemp⟩ := mem_buildInstances g parts spacing inst hsi
      exact ne_nil_of_isEmpty_false _ hemp
    · intro sp' hsp'
      rw [List.mem_map] at hsp'
      obtain ⟨i, _, rfl⟩ := hsp'
      show ("Too large for sheet at any rotation" : String) ≠ "Could not fit on any sheet"
      decide

/-- A run with a single oversized part: its instance is skipped with the
oversize reason. -/
def c10run : NestingResult ℚ :=
  nestParts rectGeom [⟨"A", [(0,0),(20,0),(20,20),(0,20)], 1⟩] 10 10 0 (1/2) 0

/-- Claim C10 witness: the concrete run above has a skipped entry, and by
the theorem its reason is not "Could not fit on any sheet". -/
theorem c10_no_unfit_skip_witness :
    (⟨"A", 1, "Too large for sheet at any rotation"⟩ : SkippedPart) ∈ c10run.skipped ∧
    (⟨"A", 1, "Too large for sheet at any rotation"⟩ : SkippedPart).reason
      ≠ "Could not fit on any sheet" :=
  ⟨by decide,
    c10_no_unfit_skip rectGeom [⟨"A", [(0,0),(20,0),(20,20),(0,20)], 1⟩]
      10 10 0 (1/2) 0 _ (by decide)⟩

/-- Claim C3 counterexample: a part whose polygon is empty (so its
buffered polygon is empty too — Shapely's buffer of an empty geometry is
empty) with quantity 2 is silently dropped by `nest_parts`: the result has
no sheets and **no skipped entries at all** — in particular no entry with
reason "invalid buffered geometry" (that string appears nowhere in the
code) — so placements + skipped = 0 ≠ 2 = Σ input quantities. -/
theorem c3_counterexample :
    nestParts rectGeom [⟨"P", ([] : Poly ℚ), 2⟩] 10 10 0 (1/2) 0
      = ⟨[], []⟩ ∧
    (([⟨"P", ([] : Poly ℚ), 2⟩] : List (PartSpec ℚ)).map PartSpec.quantity).sum = 2 ∧
    (0 : ℕ) ≠ 2 := by
  refine ⟨by decide, by decide, by decide⟩

lemma nestLoopRun_count [FloorRing K] (g : GeomOps K)
    (si : List (NestInstance K)) (sheetW sheetH uw uh margin : K)
    (rotations : List ℤ) :
    placedCountSt (nestLoopRun g si sheetW sheetH uw uh margin rotations)
      + (nestLoopRun g si sheetW sheetH uw uh margin rotations).skips.length
      = (placeableList g si uw uh rotations).length
        + (oversizedList g si uw uh rotations).length := by
  unfold nestLoopRun
  rw [foldl_nestStep_count]
  simp [placedCountSt]
  omega

/-- Claim C3 amended: provided the usable area is positive and the part
ids are pairwise distinct, the number of placements across all returned
sheets plus the number of skipped entries equals the sum of the input
quantities **of the parts whose buffered polygon is valid and non-empty**
(`countedQuantity`); a part whose buffered polygon is invalid or empty is
silently dropped — it contributes neither placements nor skipped entries,
and no "invalid buffered geometry" reason exists in the code. -/
theorem c3_amended [FloorRing K] (g : GeomOps K) (parts : List (PartSpec K))
    (sheetW sheetH spacing margin : K) (rotationStep : ℤ)
    (hw : 0 < sheetW - 2 * margin) (hh : 0 < sheetH - 2 * margin)
    (hids : (parts.map PartSpec.id).Nodup) :
    totalPartsPlaced (nestParts g parts sheetW sheetH spacing margin rotationStep)
      + (nestParts g parts sheetW sheetH spacing margin rotationStep).skipped.length
      = (parts.map (countedQuantity g spacing)).sum := by
  have hcond : ¬(sheetW - 2 * margin ≤ 0 ∨ sheetH - 2 * margin ≤ 0) := by
    push_neg
    exact ⟨hw, hh⟩
  simp only [nestParts, totalPartsPlaced]
  rw [if_neg hcond]
  dsimp only
  have hnd : ((sortedInstances g parts spacing).map
      (fun i => (i.id, i.instNo))).Nodup := by
    refine (List.Perm.nodup_iff ?_).mpr (buildInstances_keys_nodup g spacing parts hids)
    exact (sortDescBy_perm _ _).map _
  have hcount := nestLoopRun_count g (sortedInstances g parts spacing)
    sheetW sheetH (sheetW - 2 * margin) (sheetH - 2 * margin) margin
    (rotationsList rotationStep)
  have hsplit := placeable_oversized_length g (sortedInstances g parts spacing)
    (sheetW - 2 * margin) (sheetH - 2 * margin) (rotationsList rotationStep) hnd
  have hlen : (sortedInstances g parts spacing).length
      = (parts.map (countedQuantity g spacing)).sum := by
    unfold sortedInstances
    rw [(sortDescBy_perm (fun inst => areaP inst.original)
      (buildInstances g parts spacing)).length_eq]
    exact buildInstances_length g spacing parts
  have htot : ((finalizeSheets ((sheetW - 2 * margin) * (sheetH - 2 * margin))
        (((nestLoopRun g (sortedInstances g parts spacing) sheetW sheetH
          (sheetW - 2 * margin) (sheetH - 2 * margin) margin
          (rotationsList rotationStep)).finished.map Prod.fst)
          ++ [(nestLoopRun g (sortedInstances g parts spacing) sheetW sheetH
            (sheetW - 2 * margin) (sheetH - 2 * margin) margin
            (rotationsList rotationStep)).cur])).map
      (fun s => s.placements.length)).sum
      = placedCountSt (nestLoopRun g (sortedInstances g parts spacing) sheetW sheetH
          (sheetW - 2 * margin) (sheetH - 2 * margin) margin
          (rotationsList rotationStep)) := by
    rw [finalizeSheets_total, List.map_append, List.sum_append, List.map_map]
    simp only [placedCountSt, List.map_cons, List.map_nil, List.sum_cons,
      List.sum_nil]
    rfl
  rw [htot]
  omega

/-- Claim C3 amended, witness: a 2×2 square part of quantity 2 on a 10×10
sheet — both instances are placed, none skipped, and 2 + 0 = 2 is the
counted quantity sum. -/
theorem c3_amended_witness :
    (0 : ℚ) < 10 - 2 * (1/2) ∧
    (([⟨"P1", [(0,0),(2,0),(2,2),(0,2)], 2⟩] : List (PartSpec ℚ)).map
      PartSpec.id).Nodup ∧
    totalPartsPlaced (nestParts rectGeom [⟨"P1", [(0,0),(2,0),(2,2),(0,2)], 2⟩]
        10 10 0 (1/2) 0)
      + (nestParts rectGeom [⟨"P1", [(0,0),(2,0),(2,2),(0,2)], 2⟩]
        10 10 0 (1/2) 0).skipped.length
      = (([⟨"P1", [(0,0),(2,0),(2,2),(0,2)], 2⟩] : List (PartSpec ℚ)).map
        (countedQuantity rectGeom 0)).sum :=
  ⟨by norm_num, by decide,
    c3_amended rectGeom [⟨"P1", [(0,0),(2,0),(2,2),(0,2)], 2⟩] 10 10 0 (1/2) 0
      (by norm_num) (by norm_num) (by decide)⟩

/-- Two rectangular parts on a 2 × (2499/2000) sheet with zero margin and
zero spacing: a 2 × 0.2 blocker and a 0.1 × 1 strip. -/
def c4parts : List (PartSpec ℚ) :=
  [⟨"A", [(0,0),(2,0),(2,1/5),(0,1/5)], 1⟩,
   ⟨"B", [(0,0),(1/10,0),(1/10,1),(0,1)], 1⟩]

/-- The nesting result of the C4 input. -/
def c4run : NestingResult ℚ := nestParts rectGeom c4parts 2 (2499/2000) 0 0 0

/-- Claim C4 counterexample: the blocker is placed at (0, 0) and the
strip above it at y = 1/4 (the rows below collide with the blocker), so
the strip's polygon has bounding-box top 5/4 — strictly above
H − margin = 2499/2000: the placement's bounding box is **not** within
[margin, H − margin] (the scan loops allow a 0.001 overshoot). -/
theorem c4_counterexample :
    (c4run.sheets.map (fun s => s.placements.map
      (fun p => boundsMaxY (Placement.polygon p)))) = [[1/5, 5/4]] ∧
    ¬((5/4 : ℚ) ≤ 2499/2000 - 0) := by
  refine ⟨by decide, by decide⟩

/-- Claim C4 amended: for inputs whose polygons are non-empty and whose
bounding box (at every admitted rotation) is contained in the buffered
polygon's bounding box at the same rotation — true in particular for
rotation 0 with a non-negative buffer — every placement's original-polygon
bounding box lies within
[margin, W − margin + 0.001] × [margin, H − margin + 0.001]: the exact
claim bound is off only by the scan loops' 0.001 tolerance. -/
theorem c4_amended [FloorRing K] (g : GeomOps K) (parts : List (PartSpec K))
    (sheetW sheetH spacing margin : K) (rotationStep : ℤ)
    (hne : ∀ part ∈ parts, part.polygon ≠ [])
    (hbb : ∀ part ∈ parts, ∀ rot ∈ rotationsList rotationStep,
      BBoxWithin (rotIfNZ g rot part.polygon)
        (rotIfNZ g rot (g.buffer part.polygon (spacing / 2)))) :
    ∀ sheet ∈ (nestParts g parts sheetW sheetH spacing margin rotationStep).sheets,
      ∀ pl ∈ sheet.placements,
        margin ≤ boundsMinX pl.polygon ∧
        boundsMaxX pl.polygon ≤ sheetW - margin + 1 / 1000 ∧
        margin ≤ boundsMinY pl.polygon ∧
        boundsMaxY pl.polygon ≤ sheetH - margin + 1 / 1000 := by
  intro sheet hsheet pl hpl
  simp only [nestParts] at hsheet
  by_cases hcond : (sheetW - 2 * margin ≤ 0 ∨ sheetH - 2 * margin ≤ 0)
  · rw [if_pos hcond] at hsheet
    simp at hsheet
  · rw [if_neg hcond] at hsheet
    dsimp only at hsheet
    obtain ⟨s, hs, hplEq⟩ := finalizeSheets_mem _ _ _ hsheet
    rw [hplEq] at hpl
    have hinst : ∀ inst ∈ placeableList g (sortedInstances g parts spacing)
        (sheetW - 2 * margin) (sheetH - 2 * margin) (rotationsList rotationStep),
        inst.buffered ≠ [] ∧ inst.original ≠ [] ∧
        (∀ rot ∈ rotationsList rotationStep,
          BBoxWithin (rotIfNZ g rot inst.original) (rotIfNZ g rot inst.buffered)) := by
      intro inst hi
      have hsi := mem_placeableList g _ _ _ _ inst hi
      rw [mem_sortedInstances_iff] at hsi
      obtain ⟨part, hpmem, _, horig, hbuf, _, hemp⟩ :=
        mem_buildInstances g parts spacing inst hsi
      refine ⟨ne_nil_of_isEmpty_false _ hemp, ?_, ?_⟩
      · rw [horig]
        exact hne part hpmem
      · intro rot hrot
        rw [horig, hbuf]
        exact hbb part hpmem rot hrot
    have hinv := nestLoop_bounds g sheetW sheetH (sheetW - 2 * margin)
      (sheetH - 2 * margin) margin (rotationsList rotationStep)
      (placeableList g (sortedInstances g parts spacing) (sheetW - 2 * margin)
        (sheetH - 2 * margin) (rotationsList rotationStep))
      ⟨[], ⟨1, sheetW, sheetH, [], 0⟩, [],
        (oversizedList g (sortedInstances g parts spacing) (sheetW - 2 * margin)
          (sheetH - 2 * margin) (rotationsList rotationStep)).map
          (fun i => (⟨i.id, i.instNo, "Too large for sheet at any rotation"⟩ :
            SkippedPart))⟩
      hinst (by intro s' hs' pl' hpl'; simp at hs'; rw [hs'] at hpl'; simp at hpl')
      s (by unfold nestLoopRun at hs; exact hs) pl hpl
    obtain ⟨b1, b2, b3, b4⟩ := hinv
    refine ⟨b1, by linarith, b3, by linarith⟩

/-- A single 2×2 square part of quantity 1 for the C4 witness. -/
def c4wparts : List (PartSpec ℚ) := [⟨"P1", [(0,0),(2,0),(2,2),(0,2)], 1⟩]

/-- Claim C4 amended, witness: the square is placed at (1/2, 1/2) on a
10×10 sheet with margin 1/2, and its bounding box respects the amended
bounds. -/
theorem c4_amended_witness :
    (∀ part ∈ c4wparts, part.polygon ≠ []) ∧
    (∀ part ∈ c4wparts, ∀ rot ∈ rotationsList 0,
      BBoxWithin (rotIfNZ rectGeom rot part.polygon)
        (rotIfNZ rectGeom rot (rectGeom.buffer part.polygon (0 / 2)))) ∧
    (∀ sheet ∈ (nestParts rectGeom c4wparts 10 10 0 (1/2) 0).sheets,
      ∀ pl ∈ sheet.placements,
        (1/2 : ℚ) ≤ boundsMinX pl.polygon ∧
        boundsMaxX pl.polygon ≤ 10 - 1/2 + 1 / 1000 ∧
        (1/2 : ℚ) ≤ boundsMinY pl.polygon ∧
        boundsMaxY pl.polygon ≤ 10 - 1/2 + 1 / 1000) :=
  ⟨by decide, by decide,
    c4_amended rectGeom c4wparts 10 10 0 (1/2) 0 (by decide) (by decide)⟩

/-- The job row for the C6 evaluations. -/
def c6job : NestJobRow ℚ := ⟨"job-2", "alum", 1/8, 10, 10, 1/8, 1/2, 0, "projects/p/nests/j2/"⟩

/-- A parse oracle under which item "A"'s downloaded DXF is unreadable
(the reader raises) and every other item parses to a 2×2 square. -/
def c6parse : String → ParseOutcome ℚ := fun s =>
  if s = "A" then ParseOutcome.raised "Invalid DXF file"
  else ParseOutcome.ok [[(0,0),(2,0),(2,2),(0,2)]]

/-- Claim C6 counterexample: with two items A and B, both downloads
succeeding, where A's file is unreadable and B's parses fine, the whole
job **fails** with the parse error — the failure is not confined to item
A and the job does not complete with the remaining item (the parse loop
of `process_nest_task` has no per-item exception handler). -/
theorem c6_counterexample :
    processNestTask rectGeom c6job [⟨"A", 1⟩, ⟨"B", 1⟩] (fun _ => true) c6parse
      = TaskOutcome.failed "Invalid DXF file" := by
  decide

/-- Claim C6 amended: per-item confinement holds for download failures
and for items whose DXF parses to no usable geometry — such items
contribute nothing and the job still completes with the surviving parts —
provided no downloaded item's parse **raises**; an unreadable downloaded
file raises at parse time and fails the whole job (see the
counterexample). -/
theorem c6_amended [FloorRing K] (g : GeomOps K) (job : NestJobRow K)
    (items : List NestJobItem) (download : String → Bool)
    (parse : String → ParseOutcome K)
    (hne : items.isEmpty = false)
    (hparse : ∀ it ∈ items, download it.itemNumber = true →
      isRaised (parse it.itemNumber) = false)
    (hgeom : ∃ it ∈ items, download it.itemNumber = true ∧
      pickPart parse it ≠ none) :
    processNestTask g job items download parse =
      TaskOutcome.completed
        ((nestParts g ((items.filter (fun it => download it.itemNumber)).filterMap
            (pickPart parse)) job.sheetW job.sheetH job.spacing job.margin
            job.rotationStep).sheets.map (mkResultRow job.jobId job.outRoot))
        (((nestParts g ((items.filter (fun it => download it.itemNumber)).filterMap
            (pickPart parse)) job.sheetW job.sheetH job.spacing job.margin
            job.rotationStep).sheets.map
          (fun s => job.outRoot ++ "sheet_" ++ pad2 s.index ++ ".dxf"))
          ++ [job.outRoot ++ "manifest.json"])
        (nestParts g ((items.filter (fun it => download it.itemNumber)).filterMap
          (pickPart parse)) job.sheetW job.sheetH job.spacing job.margin
          job.rotationStep) := by
  obtain ⟨it0, hit0, hdl0, hpk0⟩ := hgeom
  have hmem0 : it0 ∈ items.filter (fun it => download it.itemNumber) :=
    List.mem_filter.mpr ⟨hit0, hdl0⟩
  have hparse' : ∀ it ∈ items.filter (fun it => download it.itemNumber),
      isRaised (parse it.itemNumber) = false := by
    intro it h
    obtain ⟨h1, h2⟩ := List.mem_filter.mp h
    exact hparse it h1 h2
  have hcp := collectParts_no_raise parse _ hparse'
  have hpartsne : ((items.filter (fun it => download it.itemNumber)).filterMap
      (pickPart parse)).isEmpty = false := by
    cases hpk : pickPart parse it0 with
    | none => exact absurd hpk hpk0
    | some part =>
      have hin : part ∈ (items.filter (fun it => download it.itemNumber)).filterMap
          (pickPart parse) := List.mem_filterMap.mpr ⟨it0, hmem0, hpk⟩
      cases hl : (items.filter (fun it => download it.itemNumber)).filterMap
          (pickPart parse) with
      | nil => rw [hl] at hin; exact absurd hin (List.not_mem_nil part)
      | cons a l => rfl
  have hdlne : (items.filter (fun it => download it.itemNumber)).isEmpty = false := by
    cases hl : items.filter (fun it => download it.itemNumber) with
    | nil => rw [hl] at hmem0; exact absurd hmem0 (List.not_mem_nil it0)
    | cons a l => rfl
  simp only [processNestTask]
  rw [if_neg (by rw [hne]; simp)]
  rw [if_neg (by rw [hdlne]; simp)]
  simp only [hcp]
  rw [if_neg (by rw [hpartsne]; simp)]

/-- The C6 witness items: A's download fails, B parses to no geometry,
C (quantity 2) parses to a square. -/
def c6witems : List NestJobItem := [⟨"A", 1⟩, ⟨"B", 1⟩, ⟨"C", 2⟩]

/-- The C6 witness download oracle: item A's download fails. -/
def c6wdl : String → Bool := fun s => s != "A"

/-- The C6 witness parse oracle: B yields no polygons, everything else a
2×2 square. -/
def c6wparse : String → ParseOutcome ℚ := fun s =>
  if s = "B" then ParseOutcome.ok []
  else ParseOutcome.ok [[(0,0),(2,0),(2,2),(0,2)]]

/-- Claim C6 amended, witness: with one failed download and one
empty-geometry item, the job completes with only item C's part nested. -/
theorem c6_amended_witness :
    c6witems.isEmpty = false ∧
    (∀ it ∈ c6witems, c6wdl it.itemNumber = true →
      isRaised (c6wparse it.itemNumber) = false) ∧
    (∃ it ∈ c6witems, c6wdl it.itemNumber = true ∧
      pickPart c6wparse it ≠ none) ∧
    processNestTask rectGeom c6job c6witems c6wdl c6wparse =
      TaskOutcome.completed
        ((nestParts rectGeom ((c6witems.filter (fun it => c6wdl it.itemNumber)).filterMap
            (pickPart c6wparse)) c6job.sheetW c6job.sheetH c6job.spacing c6job.margin
            c6job.rotationStep).sheets.map (mkResultRow c6job.jobId c6job.outRoot))
        (((nestParts rectGeom ((c6witems.filter (fun it => c6wdl it.itemNumber)).filterMap
            (pickPart c6wparse)) c6job.sheetW c6job.sheetH c6job.spacing c6job.margin
            c6job.rotationStep).sheets.map
          (fun s => c6job.outRoot ++ "sheet_" ++ pad2 s.index ++ ".dxf"))
          ++ [c6job.outRoot ++ "manifest.json"])
        (nestParts rectGeom ((c6witems.filter (fun it => c6wdl it.itemNumber)).filterMap
          (pickPart c6wparse)) c6job.sheetW c6job.sheetH c6job.spacing c6job.margin
          c6job.rotationStep) :=
  ⟨by decide, by decide, by decide,
    c6_amended rectGeom c6job c6witems c6wdl c6wparse (by decide) (by decide)
      (by decide)⟩

end PDMWeb
